import Mathlib

/-!
Shallow embedding of the analytics core of crespo.world
(src/crespomize/analytics.js): date validation, gap interpolation, the
per-account normalizers for the two platforms, the cross-account
aggregator, the time-range filter, the log-scale selector and the
calendar-windowed moving average.

Conventions of the embedding:
* A JavaScript Date is abstracted as its epoch milliseconds together with
  the calendar year returned by getFullYear; an Invalid Date is `none`.
* JavaScript numbers on the data paths of this file are integers (cell
  values go through parseInt(...) || 0) or exact rationals (engagement
  and averages); the embedding uses Int and Rat, so float rounding of the
  host language is idealized away.
* A sheet cell is `none` when it is null / undefined / the empty string
  (the emptiness test of the source); a non-empty cell carries its
  JavaScript truthiness, its parseInt(...) || 0 value, its
  parseFloat(...) || 0 value and its new Date(...) parse.
* The ambient clock (current year for isValidDate, "now" for the
  time-range cutoff) is passed explicitly as parameters.
* Array.prototype.sort with an ordering comparator is a stable ascending
  sort on the comparator key; it is modelled by a stable insertion sort
  (equal keys keep their input order, as the JS specification requires).
* String.prototype.split / startsWith / endsWith are modelled on the
  character list of the string.
-/

/-- Abstraction of a well-formed JavaScript Date: its epoch time in
milliseconds (getTime) together with its calendar year (getFullYear). -/
structure DateVal where
  ms : Int
  year : Int
deriving DecidableEq, Repr

/-- A JavaScript Date value that may be an Invalid Date; `none` models an
Invalid Date (NaN time), whose isValidDate check fails. -/
abbrev JSDate := Option DateVal

/-- Embedding of isValidDate (analytics.js:37): true iff the value is a
well-formed Date and its year lies in [2020, currentYear + 1]. The current
year is a parameter (the source reads the clock). -/
def isValidDate (currentYear : Int) : JSDate → Bool
  | none => false
  | some d => decide (2020 ≤ d.year) && decide (d.year ≤ currentYear + 1)

/-- A point of a metric history: { date, value }. -/
structure TimePoint where
  date : JSDate
  value : Int
deriving DecidableEq, Repr

/-- Math.round: round half toward positive infinity. -/
def jsRound (q : ℚ) : Int := ⌊q + 1 / 2⌋

/-- The first strictly positive value of a list of points; embeds the
search for the nearest interpolation neighbor (entries flagged
needsInterp, i.e. zeros, and non-positive entries are skipped). -/
def firstPositive (l : List TimePoint) : Option Int :=
  (l.map (fun p => p.value)).find? (fun v => decide (0 < v))

/-- Fills one maximal run of zero values of interpolateHistoricalData
(analytics.js:188-205): with both neighbors, step k of the run of length m
receives round(prev + (next - prev) * k / (m + 1)); with only one
neighbor the run is filled flat; with none it is left as-is. -/
def fillRun (prevV nextV : Option Int) (run : List TimePoint) : List TimePoint :=
  match prevV, nextV with
  | some p, some n =>
    let totalSteps : Nat := run.length + 1
    run.enum.map (fun e =>
      let stepNumber : Nat := e.1 + 1
      TimePoint.mk e.2.date
        (jsRound ((p : ℚ) + ((n : ℚ) - (p : ℚ)) * (stepNumber : ℚ) / (totalSteps : ℚ))))
  | some p, none => run.map (fun x => TimePoint.mk x.date p)
  | none, some n => run.map (fun x => TimePoint.mk x.date n)
  | none, none => run

/-- Worker of interpolateHistoricalData: scans left to right keeping the
last strictly positive original value; a maximal run of zeros is filled
from that value and the first strictly positive original value to its
right. The needsInterp flags of the source are never cleared, so filled
values are not reused as neighbors; this is embedded by keeping lastPos
pinned to original values. -/
def interpGo (fuel : Nat) (lastPos : Option Int) (l : List TimePoint) : List TimePoint :=
  match fuel, l with
  | _, [] => []
  | 0, rest => rest
  | Nat.succ fuel, x :: xs =>
    if x.value = 0 then
      let run := x :: xs.takeWhile (fun p => p.value == 0)
      let rest := xs.dropWhile (fun p => p.value == 0)
      fillRun lastPos (firstPositive rest) run ++ interpGo fuel lastPos rest
    else
      TimePoint.mk x.date x.value ::
        interpGo fuel (if 0 < x.value then some x.value else lastPos) xs

/-- Embedding of interpolateHistoricalData (analytics.js:149-214). On this
data path a history value is always a number (parseInt(...) || 0), so the
needsInterp test (value === 0 or nullish) degenerates to value = 0. The
fuel argument only bounds the recursion; every iteration of the source
loop consumes at least one entry, so a fuel of the list length is never
exhausted and the out-of-fuel branch is unreachable. -/
def interpolateHistoricalData (historyArray : List TimePoint) : List TimePoint :=
  interpGo historyArray.length none historyArray

/-- Inserts an element into an ascending list, after every element whose
key is not greater; this placement is what makes the sort stable. -/
def insertAfterEq {α : Type} (le : α → α → Bool) (a : α) : List α → List α
  | [] => [a]
  | b :: t => if le b a then b :: insertAfterEq le a t else a :: b :: t

/-- The model of Array.prototype.sort with an ascending comparator: a
stable insertion sort on the comparator key. -/
def stableSortBy {α : Type} (le : α → α → Bool) (l : List α) : List α :=
  l.foldl (fun acc x => insertAfterEq le x acc) []

/-- Math.max over a non-empty spread argument list (0 is a dummy for the
empty case, which the caller excludes). -/
def maxOfList (l : List ℚ) : ℚ :=
  match l with
  | [] => 0
  | x :: xs => xs.foldl max x

/-- Math.min over a non-empty spread argument list (0 is a dummy for the
empty case, which the caller excludes). -/
def minOfList (l : List ℚ) : ℚ :=
  match l with
  | [] => 0
  | x :: xs => xs.foldl min x

/-- Embedding of shouldUseLogScale (analytics.js:216-230): keep the
strictly positive values; if none remain answer false; otherwise answer
whether max / min > 100 or max / median > 10, the median being the middle
element of the ascending sort (the getD default is out of range and never
read). -/
def shouldUseLogScale (data : List ℚ) : Bool :=
  if data.length = 0 then false
  else
    let values := data.filter (fun v => decide (0 < v))
    if values.length = 0 then false
    else
      let mx := maxOfList values
      let mn := minOfList values
      let median := (stableSortBy (fun a b => decide (a ≤ b)) values).getD (values.length / 2) 0
      decide (100 < mx / mn) || decide (10 < mx / median)

/-- One day in milliseconds; the embedding of the calendar-day stepping
(setDate) used by the window and cutoff computations. -/
def dayMs : Int := 86400000

/-- A chart point { x : date, y : number }. -/
structure XY where
  x : Int
  y : ℚ
deriving DecidableEq, Repr

/-- Embedding of calculateMovingAverageByDays (analytics.js:48-78): each
point is replaced by the mean of the y values of all points whose date
falls in [x - floor(days / 2) days, x + (days - floor(days / 2)) days]
inclusive; when the window is empty the point is kept (unreachable, the
point itself qualifies). The source default for days is 7. -/
def calculateMovingAverageByDays (data : List XY) (days : Nat) : List XY :=
  let halfWindow : Nat := days / 2
  data.map (fun p =>
    let startD : Int := p.x - (halfWindow : Int) * dayMs
    let endD : Int := p.x + ((days : Int) - (halfWindow : Int)) * dayMs
    let windowPoints :=
      (data.filter (fun q => decide (startD ≤ q.x) && decide (q.x ≤ endD))).map (fun q => q.y)
    if 0 < windowPoints.length then
      XY.mk p.x (windowPoints.sum / (windowPoints.length : ℚ))
    else XY.mk p.x p.y)

/-- A materialized post/video record. -/
structure Video where
  date : DateVal
  views : Int
  likes : Int
  comments : Int
  shares : Int
  engagement : ℚ
deriving DecidableEq, Repr

/-- The selected time range: a trailing number of days or all time. -/
inductive TimeRange where
  | all
  | days (n : Int)
deriving DecidableEq, Repr

/-- Embedding of filterDataByTimeRange (analytics.js:232-239): passthrough
for all-time, otherwise keep videos dated at or after now minus the range
(setDate stepping is modelled as whole days of milliseconds). -/
def filterDataByTimeRange (now : Int) (videos : List Video) (timeRangeDays : TimeRange) : List Video :=
  match timeRangeDays with
  | .all => videos
  | .days n => videos.filter (fun v => decide (now - n * dayMs ≤ v.date.ms))

/-- Abstraction of a non-empty sheet cell: its JavaScript truthiness, its
parseInt(...) || 0 reading, its parseFloat(...) || 0 reading and its
new Date(...) parse. -/
structure CellVal where
  truthy : Bool
  asInt : Int
  asFloat : ℚ
  asDate : JSDate
deriving DecidableEq, Repr

/-- A sheet cell; `none` models null, undefined or the empty string (the
emptiness test of the right-to-left scan). -/
abbrev Cell := Option CellVal

/-- parseInt(cell) || 0: the empty cell parses to NaN and degrades to 0. -/
def cellInt : Cell → Int
  | none => 0
  | some c => c.asInt

/-- new Date(cell): the missing cell yields an Invalid Date. -/
def cellDate : Cell → JSDate
  | none => none
  | some c => c.asDate

/-- A sheet row: row[0] (none when falsy, which skips the row) and
row.slice(1). -/
structure Row where
  name : Option String
  cells : List Cell
deriving Repr

/-- A sheet as read by sheet_to_json with header 1: headers is
jsonData[0].slice(1), rows are jsonData[1..]. -/
structure Sheet where
  headers : List Cell
  rows : List Row
deriving Repr

/-- The loaded workbook: its sheet names and the sheet of each name. -/
structure Workbook where
  sheetNames : List String
  sheets : String → Sheet

/-- new Date(headers[idx]): out-of-range access gives undefined, whose
Date parse is Invalid. -/
def headerDate (headers : List Cell) (idx : Nat) : JSDate :=
  match headers[idx]? with
  | none => none
  | some c => cellDate c

/-- Embedding of the raw history of a metric row (analytics.js:264-274):
row.slice(1) mapped to { date: new Date(headers[idx]),
value: parseInt(val) || 0 } then filtered through isValidDate. -/
def mkRawHistory (cy : Int) (headers : List Cell) (cells : List Cell) : List TimePoint :=
  (cells.enum.map (fun e => TimePoint.mk (headerDate headers e.1) (cellInt e.2))).filter
    (fun item => isValidDate cy item.date)

/-- The per-id accumulation object { id: videoId, ...metrics }. -/
structure VideoObj where
  idStr : String
  attrs : List (String × CellVal)
deriving DecidableEq, Repr

/-- video[metric] !== undefined: the id property exists from creation,
every other property exactly when already recorded. -/
def objHas (v : VideoObj) (metric : String) : Bool :=
  metric == "id" || (v.attrs.find? (fun a => a.1 == metric)).isSome

/-- Records metric := c unless the property is already defined
(analytics.js:312-314). -/
def objSet (v : VideoObj) (metric : String) (c : CellVal) : VideoObj :=
  if objHas v metric then v else { v with attrs := v.attrs ++ [(metric, c)] }

/-- Reads a recorded metric of the accumulation object. -/
def objGet (v : VideoObj) (metric : String) : Option CellVal :=
  (v.attrs.find? (fun a => a.1 == metric)).map (fun a => a.2)

/-- The insertion-ordered Map from video id to its accumulation object. -/
abbrev VideosMap := List (String × VideoObj)

/-- allVideosMap.get(videoId). -/
def vmFind (m : VideosMap) (id : String) : Option VideoObj :=
  (m.find? (fun e => e.1 == id)).map (fun e => e.2)

/-- Embedding of the map update on a found non-empty cell: create the
{ id } object when absent, then record the metric unless already set. -/
def vmStore (m : VideosMap) (id : String) (metric : String) (c : CellVal) : VideosMap :=
  if (m.find? (fun e => e.1 == id)).isSome then
    m.map (fun e => if e.1 == id then (e.1, objSet e.2 metric c) else e)
  else m ++ [(id, objSet (VideoObj.mk id []) metric c)]

/-- String.prototype.startsWith on the character list of the string. -/
def strStartsWith (s p : String) : Bool :=
  s.data.take p.data.length == p.data

/-- String.prototype.endsWith on the character list of the string. -/
def strEndsWith (s p : String) : Bool :=
  s.data.drop (s.data.length - p.data.length) == p.data

/-- Worker of the underscore split: acc holds the reversed pending
segment. -/
def splitUnderscoreAux : List Char → List Char → List (List Char)
  | [], acc => [acc.reverse]
  | c :: t, acc => if c == '_' then acc.reverse :: splitUnderscoreAux t [] else splitUnderscoreAux t (c :: acc)

/-- String.prototype.split("_"): every occurrence of the underscore
separates segments, empty segments preserved. -/
def splitUnderscore (name : String) : List String :=
  (splitUnderscoreAux name.data []).map (fun cs => String.mk cs)

/-- The right-to-left scan over row[row.length-1] down to row[1]
(analytics.js:302-305): the first non-empty cell from the right end of
row.slice(1). -/
def rightmostNonEmpty (cells : List Cell) : Option CellVal :=
  Option.join (cells.reverse.find? (fun c => c.isSome))

/-- Splits a post/reel row name: the metric is the trailing underscore
segment, the video id rejoins the middle segments
(parts.slice(1, -1).join) (analytics.js:294-296). -/
def splitRowName (name : String) : String × String :=
  let parts := splitUnderscore name
  (String.intercalate "_" ((parts.drop 1).dropLast), parts.getLastD "")

/-- Set.add on the insertion-ordered unique-id list. -/
def addUnique (ids : List String) (id : String) : List String :=
  if id ∈ ids then ids else ids ++ [id]

/-- history.length > 0 ? history[history.length - 1].value : d. -/
def lastValueOr (h : List TimePoint) (d : Int) : Int :=
  match h.getLast? with
  | none => d
  | some p => p.value

/-- The mutable locals of the TikTok row scan. -/
structure TKState where
  followersHistory : List TimePoint
  totalLikesHistory : List TimePoint
  followersVar : Option Int
  totalLikesVar : Option Int
  videosMap : VideosMap
  uniqueIds : List String

def initTKState : TKState := TKState.mk [] [] none none [] []

/-- One iteration of the TikTok row loop (analytics.js:257-320). The
posts_scraped branch assigns a local that the returned snapshot never
reads, so it leaves the state unchanged. -/
def tkStep (cy : Int) (headers : List Cell) (st : TKState) (row : Row) : TKState :=
  match row.name with
  | none => st
  | some rowName =>
    if rowName == "followers" then
      let h := mkRawHistory cy headers row.cells
      { st with followersHistory := h, followersVar := some (lastValueOr h 0) }
    else if rowName == "total_likes" then
      let h := mkRawHistory cy headers row.cells
      { st with totalLikesHistory := h, totalLikesVar := some (lastValueOr h 0) }
    else if rowName == "posts_scraped" then st
    else if strStartsWith rowName "post_" then
      let pm := splitRowName rowName
      let st1 :=
        if pm.2 == "Date" then { st with uniqueIds := addUnique st.uniqueIds pm.1 } else st
      match rightmostNonEmpty row.cells with
      | none => st1
      | some c => { st1 with videosMap := vmStore st1.videosMap pm.1 pm.2 c }
    else st

/-- parseInt(v[metric]) || 0 on a possibly missing recorded metric. -/
def attrInt (o : Option CellVal) : Int :=
  match o with
  | none => 0
  | some c => c.asInt

/-- parseFloat(v[metric]) || 0 on a possibly missing recorded metric. -/
def attrFloat (o : Option CellVal) : ℚ :=
  match o with
  | none => 0
  | some c => c.asFloat

/-- Embedding of the TikTok cleanVideos step (analytics.js:330-345): keep
the object only when v.Date is truthy and parses to a valid date; numeric
fields degrade to 0, engagement to 0.0. -/
def mkCleanVideoTikTok (cy : Int) (v : VideoObj) : Option Video :=
  match objGet v "Date" with
  | none => none
  | some dc =>
    if dc.truthy then
      match dc.asDate with
      | none => none
      | some dv =>
        if isValidDate cy (some dv) then
          some (Video.mk dv (attrInt (objGet v "Views")) (attrInt (objGet v "Likes"))
            (attrInt (objGet v "Comments")) (attrInt (objGet v "Shares"))
            (attrFloat (objGet v "EngagementRate")))
        else none
    else none

/-- Array.prototype.sort with comparator (a, b) => a.date - b.date on
video records (a stable ascending sort on the epoch time). -/
def sortVideosByDate (l : List Video) : List Video :=
  stableSortBy (fun a b => decide (a.date.ms ≤ b.date.ms)) l

/-- The final re-validation of a history (analytics.js:325-326): keep
points with a valid date and a strictly positive value. -/
def histPostFilter (cy : Int) (h : List TimePoint) : List TimePoint :=
  h.filter (fun item => isValidDate cy item.date && decide (0 < item.value))

/-- parseInt(x) || 0 on a possibly null numeric local. -/
def optIntOr0 : Option Int → Int
  | none => 0
  | some n => n

/-- latestX = history.length > 0 ? last value : fallback local, then
parseInt(latestX) || 0. -/
def latestOr (h : List TimePoint) (fallback : Option Int) : Int :=
  match h.getLast? with
  | some p => p.value
  | none => optIntOr0 fallback

/-- The per-account output record. -/
structure AccountSnapshot where
  followers : Int
  totalLikes : Int
  postsScraped : Nat
  videos : List Video
  followersHistory : List TimePoint
  totalLikesHistory : List TimePoint
deriving Repr

/-- Embedding of parseAccountDataTikTok (analytics.js:241-366). -/
def parseAccountDataTikTok (cy now : Int) (wb : Workbook) (sheetName : String)
    (timeRangeDays : TimeRange) : AccountSnapshot :=
  let sheet := wb.sheets sheetName
  let st := sheet.rows.foldl (tkStep cy sheet.headers) initTKState
  let followersHistory := histPostFilter cy (interpolateHistoricalData st.followersHistory)
  let totalLikesHistory := histPostFilter cy (interpolateHistoricalData st.totalLikesHistory)
  let videosData := st.videosMap.map (fun e => e.2)
  let cleanVideos := sortVideosByDate (videosData.filterMap (mkCleanVideoTikTok cy))
  AccountSnapshot.mk
    (latestOr followersHistory st.followersVar)
    (latestOr totalLikesHistory st.totalLikesVar)
    st.uniqueIds.length
    (filterDataByTimeRange now cleanVideos timeRangeDays)
    followersHistory
    totalLikesHistory

/-- The Instagram row-name grammar table (analytics.js:411-417). -/
def metricMapping (metric : String) : Option String :=
  if metric == "date" then some "Date"
  else if metric == "views" then some "Views"
  else if metric == "likes" then some "Likes"
  else if metric == "comments" then some "Comments"
  else if metric == "engagement" then some "EngagementRate"
  else none

/-- The mutable locals of the Instagram row scan. -/
structure IGState where
  followersHistory : List TimePoint
  followersVar : Option Int
  videosMap : VideosMap
  uniqueIds : List String

def initIGState : IGState := IGState.mk [] none [] []

/-- One iteration of the Instagram row loop (analytics.js:384-447). The
reels_scraped branch assigns a local that the returned snapshot never
reads; date_display rows are skipped; unmapped metrics are dropped. -/
def igStep (cy : Int) (headers : List Cell) (st : IGState) (row : Row) : IGState :=
  match row.name with
  | none => st
  | some rowName =>
    if rowName == "followers" then
      let h := mkRawHistory cy headers row.cells
      { st with followersHistory := h, followersVar := some (lastValueOr h 0) }
    else if rowName == "reels_scraped" then st
    else if strStartsWith rowName "reel_" then
      let pm := splitRowName rowName
      let st1 :=
        if pm.2 == "date" then { st with uniqueIds := addUnique st.uniqueIds pm.1 } else st
      if pm.2 == "date_display" then st1
      else
        match metricMapping pm.2 with
        | none => st1
        | some mapped =>
          match rightmostNonEmpty row.cells with
          | none => st1
          | some c => { st1 with videosMap := vmStore st1.videosMap pm.1 mapped c }
    else st

/-- rowName is truthy, starts with reel_ and ends with _likes
(analytics.js:456). -/
def isReelLikesRow (row : Row) : Bool :=
  match row.name with
  | none => false
  | some n => strStartsWith n "reel_" && strEndsWith n "_likes"

/-- Embedding of the per-column likes total (analytics.js:449-460): sum
parseInt(row[colIdx + 1]) || 0 over all reel_*_likes rows; the
out-of-range cell reads as undefined and degrades to 0. -/
def igColumnLikes (rows : List Row) (colIdx : Nat) : Int :=
  (rows.filter isReelLikesRow).foldl (fun acc row => acc + cellInt (row.cells.getD colIdx none)) 0

/-- Embedding of the Instagram raw total-likes history
(analytics.js:449-468): one candidate point per header column, pushed only
when the column total is strictly positive. -/
def igRawLikesHistory (rows : List Row) (headers : List Cell) : List TimePoint :=
  (List.range headers.length).filterMap (fun colIdx =>
    let v := igColumnLikes rows colIdx
    if 0 < v then some (TimePoint.mk (headerDate headers colIdx) v) else none)

/-- Embedding of the Instagram cleanVideos step (analytics.js:481-496):
like TikTok but shares is the literal 0. -/
def mkCleanVideoInstagram (cy : Int) (v : VideoObj) : Option Video :=
  match objGet v "Date" with
  | none => none
  | some dc =>
    if dc.truthy then
      match dc.asDate with
      | none => none
      | some dv =>
        if isValidDate cy (some dv) then
          some (Video.mk dv (attrInt (objGet v "Views")) (attrInt (objGet v "Likes"))
            (attrInt (objGet v "Comments")) 0 (attrFloat (objGet v "EngagementRate")))
        else none
    else none

/-- Embedding of parseAccountDataInstagram (analytics.js:368-517). The
likes history is filtered (line 470), its last value snapshotted
(line 471), then interpolated (line 474) and filtered again (line 477). -/
def parseAccountDataInstagram (cy now : Int) (wb : Workbook) (sheetName : String)
    (timeRangeDays : TimeRange) : AccountSnapshot :=
  let sheet := wb.sheets sheetName
  let st := sheet.rows.foldl (igStep cy sheet.headers) initIGState
  let likes1 := histPostFilter cy (igRawLikesHistory sheet.rows sheet.headers)
  let totalLikesVar : Option Int := some (lastValueOr likes1 0)
  let followersHistory := histPostFilter cy (interpolateHistoricalData st.followersHistory)
  let totalLikesHistory := histPostFilter cy (interpolateHistoricalData likes1)
  let videosData := st.videosMap.map (fun e => e.2)
  let cleanVideos := sortVideosByDate (videosData.filterMap (mkCleanVideoInstagram cy))
  AccountSnapshot.mk
    (latestOr followersHistory st.followersVar)
    (latestOr totalLikesHistory totalLikesVar)
    st.uniqueIds.length
    (filterDataByTimeRange now cleanVideos timeRangeDays)
    followersHistory
    totalLikesHistory

/-- The platform selector (selectedPlatform): any non-instagram value
takes the TikTok path. -/
inductive Platform where
  | tiktok
  | instagram
deriving DecidableEq, Repr

/-- Embedding of parseAccountData (analytics.js:519-525). -/
def parseAccountData (cy now : Int) (pf : Platform) (wb : Workbook) (sheetName : String)
    (timeRangeDays : TimeRange) : AccountSnapshot :=
  match pf with
  | .instagram => parseAccountDataInstagram cy now wb sheetName timeRangeDays
  | .tiktok => parseAccountDataTikTok cy now wb sheetName timeRangeDays

/-- One bucket of the per-timestamp grouping dictionary. Its dictionary
key is date.toISOString(), which is injective on valid dates, so the
bucket is keyed by the date value itself. -/
structure GroupEntry where
  key : DateVal
  total : Int
  accountCount : Nat
deriving DecidableEq, Repr

/-- One iteration of the aggregation inner loop (analytics.js:544-557):
skip the point unless its date is valid, then add its value and bump the
contribution count of its timestamp bucket, creating the bucket if
needed. -/
def groupStep (cy : Int) (m : List GroupEntry) (p : TimePoint) : List GroupEntry :=
  match p.date with
  | none => m
  | some dv =>
    if isValidDate cy (some dv) then
      if (m.find? (fun e => e.key == dv)).isSome then
        m.map (fun e =>
          if e.key == dv then GroupEntry.mk e.key (e.total + p.value) (e.accountCount + 1) else e)
      else m ++ [GroupEntry.mk dv p.value 1]
    else m

/-- The epoch-milliseconds sort key of a point (a.date - b.date coerces
the Date to its epoch time); every point reaching a sort carries a valid
date, so the Invalid-Date key 0 is never compared. -/
def ptMs (p : TimePoint) : Int :=
  match p.date with
  | none => 0
  | some d => d.ms

/-- Array.prototype.sort with comparator (a, b) => a.date - b.date on
time points (a stable ascending sort on the epoch time). -/
def sortPointsByDate (l : List TimePoint) : List TimePoint :=
  stableSortBy (fun a b => decide (ptMs a ≤ ptMs b)) l

/-- Embedding of the combined-history pipeline (analytics.js:577-587):
group all accounts' points by timestamp, keep the buckets whose
contribution count equals the account count, re-validate and sort. -/
def combineHistories (cy : Int) (totalAccountCount : Nat) (pts : List TimePoint) : List TimePoint :=
  let grouped := pts.foldl (groupStep cy) []
  sortPointsByDate
    (((grouped.filter (fun e => e.accountCount == totalAccountCount)).map
        (fun e => TimePoint.mk (some e.key) e.total)).filter
      (fun item => isValidDate cy item.date && decide (0 < item.value)))

/-- The aggregate output record. -/
structure AggregateSnapshot where
  followers : Int
  totalLikes : Int
  postsScraped : Nat
  videos : List Video
  followersHistory : List TimePoint
  totalLikesHistory : List TimePoint
  totalViews : Int
  viewsPerSecond : ℚ
  accountCount : Nat
deriving Repr

/-- Embedding of parseMoonMediaTotal (analytics.js:527-620). -/
def parseMoonMediaTotal (cy now : Int) (pf : Platform) (wb : Workbook)
    (timeRangeDays : TimeRange) : AggregateSnapshot :=
  let datas := wb.sheetNames.map (fun s => parseAccountData cy now pf wb s timeRangeDays)
  let totalAccountCount := wb.sheetNames.length
  let followersHistory :=
    combineHistories cy totalAccountCount ((datas.map (fun d => d.followersHistory)).flatten)
  let totalLikesHistory :=
    combineHistories cy totalAccountCount ((datas.map (fun d => d.totalLikesHistory)).flatten)
  let allVideos := sortVideosByDate ((datas.map (fun d => d.videos)).flatten)
  let last100 := allVideos.drop (allVideos.length - 100)
  let viewsPerSecond : ℚ :=
    if 2 ≤ last100.length then
      match last100.head?, last100.getLast? with
      | some oldest, some newest =>
        let timeSpanSeconds : ℚ := ((newest.date.ms - oldest.date.ms : Int) : ℚ) / 1000
        if 0 < timeSpanSeconds then
          (((last100.map (fun v => v.views)).sum : Int) : ℚ) / timeSpanSeconds
        else 0
      | _, _ => 0
    else 0
  AggregateSnapshot.mk
    ((datas.map (fun d => d.followers)).sum)
    ((datas.map (fun d => d.totalLikes)).sum)
    ((datas.map (fun d => d.postsScraped)).sum)
    allVideos
    followersHistory
    totalLikesHistory
    ((allVideos.map (fun v => v.views)).sum)
    viewsPerSecond
    wb.sheetNames.length

/-! Statement vocabulary: predicates used to state the verified
properties, written against the embedded data model. -/

/-- The points of a history dated exactly at the given timestamp
(timestamps of valid dates correspond one-to-one to ISO strings). -/
def pointsAt (dv : DateVal) (h : List TimePoint) : List TimePoint :=
  h.filter (fun p => p.date == some dv)

/-- The row is a TikTok attribute row post_<id>_<metric> for exactly this
id and metric. -/
def isPostRowFor (id metric : String) (row : Row) : Bool :=
  match row.name with
  | none => false
  | some n =>
    strStartsWith n "post_" && (splitRowName n).1 == id && (splitRowName n).2 == metric

/-- The row is an Instagram attribute row reel_<id>_<m> for exactly this
id whose metric m maps to the given attribute name. -/
def isReelRowFor (id mapped : String) (row : Row) : Bool :=
  match row.name with
  | none => false
  | some n =>
    strStartsWith n "reel_" && (splitRowName n).1 == id &&
      (metricMapping (splitRowName n).2 == some mapped)

/-- The attribute recorded for an id in the accumulated videos map. -/
def recordedAttr (m : VideosMap) (id metric : String) : Option CellVal :=
  match vmFind m id with
  | none => none
  | some v => objGet v metric

/-! Concrete fixtures used by witnesses and counterexamples. -/

/-- Day k of a fixed test month: a valid date in 2024. -/
def fxDate (k : Nat) : DateVal := DateVal.mk ((k : Int) * dayMs) 2024

/-- A header cell that parses to day k. -/
def fxDateCell (k : Nat) : Cell := some (CellVal.mk true 0 0 (some (fxDate k)))

/-- A numeric value cell. -/
def fxNumCell (n : Int) : Cell := some (CellVal.mk (decide (n ≠ 0)) n (n : ℚ) none)

/-- The headers of the interpolation scenario: days 1, 2, 3, 4. -/
def fxHeadersC2 : List Cell := [fxDateCell 1, fxDateCell 2, fxDateCell 3, fxDateCell 4]

/-- The followers row of the interpolation scenario: [100, 0, 0, 200]. -/
def fxRowC2 : List Cell := [fxNumCell 100, fxNumCell 0, fxNumCell 0, fxNumCell 200]

/-- The raw history the followers branch builds from the scenario row. -/
def fxHistoryC2 : List TimePoint := mkRawHistory 2025 fxHeadersC2 fxRowC2

/-- Account A of the aggregation scenario: followers at days 1, 2, 3. -/
def fxSheetA : Sheet := Sheet.mk [fxDateCell 1, fxDateCell 2, fxDateCell 3]
  [Row.mk (some "followers") [fxNumCell 10, fxNumCell 20, fxNumCell 30],
   Row.mk (some "total_likes") [fxNumCell 1, fxNumCell 2, fxNumCell 3]]

/-- Account B of the aggregation scenario: followers at days 1 and 3 only. -/
def fxSheetB : Sheet := Sheet.mk [fxDateCell 1, fxDateCell 3]
  [Row.mk (some "followers") [fxNumCell 5, fxNumCell 7],
   Row.mk (some "total_likes") [fxNumCell 1, fxNumCell 1]]

/-- The two-account workbook of the aggregation scenario. -/
def fxWbAB : Workbook := Workbook.mk ["A", "B"]
  (fun s => if s = "A" then fxSheetA else fxSheetB)

/-- A workbook holding only account A. -/
def fxWbSingle : Workbook := Workbook.mk ["A"] (fun _ => fxSheetA)

/-- A sheet whose header repeats the same timestamp twice. -/
def fxSheetDup : Sheet := Sheet.mk [fxDateCell 1, fxDateCell 1]
  [Row.mk (some "followers") [fxNumCell 5, fxNumCell 7]]

/-- A single-account workbook with a duplicated header timestamp. -/
def fxWbDup : Workbook := Workbook.mk ["a"] (fun _ => fxSheetDup)

/-- A sheet whose header columns run backward in time. -/
def fxSheetRev : Sheet := Sheet.mk [fxDateCell 2, fxDateCell 1]
  [Row.mk (some "followers") [fxNumCell 5, fxNumCell 6]]

/-- A workbook holding the backward sheet. -/
def fxWbRev : Workbook := Workbook.mk ["a"] (fun _ => fxSheetRev)

/-- A sheet with one video dated day 1 with 10 views. -/
def fxSheetVid : Sheet := Sheet.mk [fxDateCell 1]
  [Row.mk (some "post_X_Date") [fxDateCell 1],
   Row.mk (some "post_X_Views") [fxNumCell 10]]

/-- A workbook holding the one-video sheet. -/
def fxWbVid : Workbook := Workbook.mk ["a"] (fun _ => fxSheetVid)

/-- An Instagram sheet with one reel dated day 1. -/
def fxSheetIG : Sheet := Sheet.mk [fxDateCell 1]
  [Row.mk (some "reel_Y_date") [fxDateCell 1],
   Row.mk (some "reel_Y_views") [fxNumCell 9],
   Row.mk (some "reel_Y_likes") [fxNumCell 4]]

/-- A workbook holding the Instagram sheet. -/
def fxWbIG : Workbook := Workbook.mk ["a"] (fun _ => fxSheetIG)

/-- TikTok rows for the attribute-selection witness: the Views row of id X
holds cells [7, empty], so the rightmost non-blank is 7. -/
def fxRowsC8tk : List Row :=
  [Row.mk (some "post_X_Views") [fxNumCell 7, none],
   Row.mk (some "post_X_Views") [fxNumCell 8]]

/-- Instagram rows for the attribute-selection witness. -/
def fxRowsC8ig : List Row :=
  [Row.mk (some "reel_Y_views") [none, fxNumCell 3],
   Row.mk (some "reel_Y_views") [fxNumCell 4]]

/-! Helper lemmas. -/

theorem list_map_eq_self {α : Type} (l : List α) (f : α → α) (h : ∀ x ∈ l, f x = x) :
    l.map f = l := by
  induction l with
  | nil => rfl
  | cons a t ih =>
    simp only [List.map_cons, h a (List.mem_cons_self a t),
      ih (fun x hx => h x (List.mem_cons_of_mem a hx)), List.cons.injEq, and_self]

theorem histPostFilter_sound (cy : Int) (h : List TimePoint) (p : TimePoint)
    (hp : p ∈ histPostFilter cy h) : 0 < p.value ∧ isValidDate cy p.date = true := by
  rw [histPostFilter, List.mem_filter] at hp
  have h2 := hp.2
  simp only [Bool.and_eq_true, decide_eq_true_eq] at h2
  exact ⟨h2.2, h2.1⟩

/-! Verification of the claims. -/

/-- C5: every point of the followersHistory and totalLikesHistory of an
AccountSnapshot returned by either per-account normalizer has a strictly
positive value and a date accepted by isValidDate. -/
theorem c5_history_points_positive_and_valid (cy now : Int) (wb : Workbook)
    (s : String) (r : TimeRange) :
    (∀ p ∈ (parseAccountDataTikTok cy now wb s r).followersHistory,
        0 < p.value ∧ isValidDate cy p.date = true) ∧
    (∀ p ∈ (parseAccountDataTikTok cy now wb s r).totalLikesHistory,
        0 < p.value ∧ isValidDate cy p.date = true) ∧
    (∀ p ∈ (parseAccountDataInstagram cy now wb s r).followersHistory,
        0 < p.value ∧ isValidDate cy p.date = true) ∧
    (∀ p ∈ (parseAccountDataInstagram cy now wb s r).totalLikesHistory,
        0 < p.value ∧ isValidDate cy p.date = true) :=
  ⟨fun p hp => histPostFilter_sound cy _ p hp, fun p hp => histPostFilter_sound cy _ p hp,
   fun p hp => histPostFilter_sound cy _ p hp, fun p hp => histPostFilter_sound cy _ p hp⟩

/-- Witness for C5 at a concrete sheet and point. -/
theorem c5_witness :
    0 < (TimePoint.mk (some (fxDate 1)) 10).value ∧
      isValidDate 2025 (TimePoint.mk (some (fxDate 1)) 10).date = true :=
  (c5_history_points_positive_and_valid 2025 0 fxWbAB "A" TimeRange.all).1
    (TimePoint.mk (some (fxDate 1)) 10) (by decide)

theorem mkCleanVideoInstagram_shares (cy : Int) (v : VideoObj) (vid : Video)
    (h : mkCleanVideoInstagram cy v = some vid) : vid.shares = 0 := by
  unfold mkCleanVideoInstagram at h
  split at h
  · exact Option.noConfusion h
  · split at h
    · split at h
      · exact Option.noConfusion h
      · split at h
        · simp only [Option.some.injEq] at h
          rw [← h]
        · exact Option.noConfusion h
    · exact Option.noConfusion h

theorem mem_filterDataByTimeRange (now : Int) (l : List Video) (r : TimeRange) (v : Video)
    (h : v ∈ filterDataByTimeRange now l r) : v ∈ l := by
  cases r with
  | all => exact h
  | days n => exact (List.mem_filter.1 h).1

theorem insertAfterEq_perm {α : Type} (le : α → α → Bool) (a : α) (l : List α) :
    (insertAfterEq le a l).Perm (a :: l) := by
  induction l with
  | nil => exact List.Perm.refl _
  | cons b t ih =>
    rw [insertAfterEq]
    split
    · exact ((ih.cons b).trans (List.Perm.swap a b t))
    · exact List.Perm.refl _

theorem stableSortBy_perm {α : Type} (le : α → α → Bool) (l : List α) :
    (stableSortBy le l).Perm l := by
  have key : ∀ (l acc : List α),
      (l.foldl (fun acc x => insertAfterEq le x acc) acc).Perm (acc ++ l) := by
    intro l
    induction l with
    | nil => intro acc; simp
    | cons x t ih =>
      intro acc
      have h1 := ih (insertAfterEq le x acc)
      have h2 : ((insertAfterEq le x acc) ++ t).Perm (acc ++ x :: t) :=
        ((insertAfterEq_perm le x acc).append_right t).trans
          (by rw [List.cons_append]; exact List.perm_middle.symm)
      exact h1.trans h2
  simpa using key l []

theorem mem_sortVideosByDate (l : List Video) (v : Video) (h : v ∈ sortVideosByDate l) :
    v ∈ l := by
  rw [sortVideosByDate] at h
  exact (stableSortBy_perm _ l).mem_iff.1 h

/-- C10: every video record returned by the Instagram normalizer has
shares equal to 0, on every input sheet; the normalizer emits the
constant 0 for that field. -/
theorem c10_instagram_shares_always_zero (cy now : Int) (wb : Workbook) (s : String)
    (r : TimeRange) :
    ∀ v ∈ (parseAccountDataInstagram cy now wb s r).videos, v.shares = 0 := by
  intro v hv
  have hv1 := mem_filterDataByTimeRange now _ r v hv
  have hv2 := mem_sortVideosByDate _ v hv1
  rcases List.mem_filterMap.1 hv2 with ⟨obj, _, hobj⟩
  exact mkCleanVideoInstagram_shares cy obj v hobj

/-- Witness for C10 at a concrete Instagram sheet. -/
theorem c10_witness : (Video.mk (fxDate 1) 9 4 0 0 0).shares = 0 :=
  c10_instagram_shares_always_zero 2025 0 fxWbIG "a" TimeRange.all
    (Video.mk (fxDate 1) 9 4 0 0 0) (by decide)

/-- Evaluation of the interpolation scenario: the followers row
[100, 0, 0, 200] under headers of days 1..4 interpolates to the values
100, 133, 167, 200 (Math.round of 133.33... and 166.66...). -/
theorem fxInterpC2_eval :
    interpolateHistoricalData fxHistoryC2 =
      [TimePoint.mk (some (fxDate 1)) 100, TimePoint.mk (some (fxDate 2)) 133,
       TimePoint.mk (some (fxDate 3)) 167, TimePoint.mk (some (fxDate 4)) 200] := by
  have h0 : fxHistoryC2 = [TimePoint.mk (some (fxDate 1)) 100, TimePoint.mk (some (fxDate 2)) 0,
      TimePoint.mk (some (fxDate 3)) 0, TimePoint.mk (some (fxDate 4)) 200] := by decide
  have hb : ((200 : Int) == 0) = false := by decide
  rw [h0, interpolateHistoricalData]
  norm_num [interpGo, fillRun, firstPositive, jsRound, List.takeWhile, List.dropWhile,
    List.enum, List.enumFrom, List.find?, hb]

/-- C2 counterexample: on the followers row [100, 0, 0, 200] at days
1..4, interpolateHistoricalData does not produce the values
[100, 133, 166, 200] claimed by the specification. -/
theorem c2_counterexample :
    ¬ (interpolateHistoricalData fxHistoryC2).map (fun p => p.value) = [100, 133, 166, 200] := by
  rw [fxInterpC2_eval]
  decide

/-- C2 amended: the rounded linear fill takes step k of an m-gap run to
round(prev + (next - prev) * k / (m + 1)), so the scenario row yields
[100, 133, 167, 200] (166.66... rounds to 167, not 166). -/
theorem c2_amended :
    (interpolateHistoricalData fxHistoryC2).map (fun p => p.value) = [100, 133, 167, 200] ∧
    (interpolateHistoricalData fxHistoryC2).map (fun p => p.date) =
      [some (fxDate 1), some (fxDate 2), some (fxDate 3), some (fxDate 4)] := by
  rw [fxInterpC2_eval]
  exact ⟨rfl, rfl⟩

theorem window_filter_singleton (data : List XY) (p : XY)
    (hsep : data.Pairwise (fun a b => a.x + dayMs < b.x ∨ b.x + dayMs < a.x)) (hp : p ∈ data) :
    data.filter (fun q => decide (p.x ≤ q.x) && decide (q.x ≤ p.x + dayMs)) = [p] := by
  induction data with
  | nil => cases hp
  | cons a t ih =>
    rw [List.pairwise_cons] at hsep
    obtain ⟨ha, ht⟩ := hsep
    rcases List.mem_cons.1 hp with h | hpt
    · subst h
      rw [List.filter_cons_of_pos (by simp [dayMs])]
      rw [List.filter_eq_nil_iff.2 ?_]
      intro b hb
      have hd := ha b hb
      simp only [Bool.and_eq_true, decide_eq_true_eq, not_and]
      intro h1 h2
      omega
    · have hd := ha p hpt
      rw [List.filter_cons_of_neg ?_]
      · exact ih ht hpt
      · simp only [Bool.and_eq_true, decide_eq_true_eq, not_and]
        intro h1 h2
        omega

/-- C4 counterexample: with windowDays = 1 the window of a point reaches
one whole day forward, so a series with two points one day apart is
changed by the moving average (the first point becomes the mean of the
two). -/
theorem c4_counterexample :
    calculateMovingAverageByDays [XY.mk 0 0, XY.mk dayMs 2] 1 ≠ [XY.mk 0 0, XY.mk dayMs 2] := by
  have he : calculateMovingAverageByDays [XY.mk 0 0, XY.mk dayMs 2] 1
      = [XY.mk 0 1, XY.mk dayMs 2] := by
    norm_num [calculateMovingAverageByDays, List.filter, dayMs]
  rw [he]
  intro h
  simp only [List.cons.injEq, XY.mk.injEq] at h
  exact absurd h.1.2 (by norm_num)

/-- C4 amended: with windowDays = 1 the window of a point at date d is
[d, d + 1 day], so the moving average returns the series unchanged
provided the points are pairwise more than one day apart; it is not the
identity on arbitrary series. -/
theorem c4_amended (data : List XY)
    (hsep : data.Pairwise (fun a b => a.x + dayMs < b.x ∨ b.x + dayMs < a.x)) :
    calculateMovingAverageByDays data 1 = data := by
  unfold calculateMovingAverageByDays
  apply list_map_eq_self
  intro p hp
  norm_num
  rw [window_filter_singleton data p hsep hp]
  norm_num

/-- Witness for the amended C4 at a concrete well-separated series. -/
theorem c4_witness :
    calculateMovingAverageByDays [XY.mk 0 5, XY.mk (3 * dayMs) 9] 1
      = [XY.mk 0 5, XY.mk (3 * dayMs) 9] :=
  c4_amended [XY.mk 0 5, XY.mk (3 * dayMs) 9] (by norm_num [List.pairwise_cons, dayMs])

/-- C3 counterexample: with a 30-day range selected and a single video
dated far in the past, totalViews is 0 while the all-time sum of views
over all the accounts' videos is 10; totalViews is computed after range
filtering, not before. -/
theorem c3_counterexample :
    (parseMoonMediaTotal 2025 (1000 * dayMs) Platform.tiktok fxWbVid (TimeRange.days 30)).totalViews
      ≠ (fxWbVid.sheetNames.map (fun s =>
          ((parseAccountData 2025 (1000 * dayMs) Platform.tiktok fxWbVid s TimeRange.all).videos.map
            (fun v => v.views)).sum)).sum := by decide

/-- C3 amended: totalViews equals the sum of views over the per-account
video lists after the selected time range has been applied to them (the
range-filtered lists are what feed the aggregate). -/
theorem c3_amended (cy now : Int) (pf : Platform) (wb : Workbook) (r : TimeRange) :
    (parseMoonMediaTotal cy now pf wb r).totalViews
      = (wb.sheetNames.map (fun s =>
          ((parseAccountData cy now pf wb s r).videos.map (fun v => v.views)).sum)).sum := by
  show ((sortVideosByDate
      (((wb.sheetNames.map (fun s => parseAccountData cy now pf wb s r)).map
        (fun d => d.videos)).flatten)).map (fun v => v.views)).sum = _
  rw [sortVideosByDate]
  have hperm := ((stableSortBy_perm (fun a b : Video => decide (a.date.ms ≤ b.date.ms))
      (((wb.sheetNames.map (fun s => parseAccountData cy now pf wb s r)).map
        (fun d => d.videos)).flatten)).map (fun v => v.views)).sum_eq
  rw [hperm]
  rw [List.map_flatten, List.sum_flatten]
  simp only [List.map_map]
  rfl

theorem foldlMax_mem (x : ℚ) (xs : List ℚ) : xs.foldl max x ∈ x :: xs := by
  induction xs generalizing x with
  | nil => simp
  | cons y t ih =>
    rw [List.foldl_cons]
    rcases List.mem_cons.1 (ih (max x y)) with h | h
    · rcases max_choice x y with hm | hm
      · rw [h, hm]; exact List.mem_cons_self _ _
      · rw [h, hm]; exact List.mem_cons_of_mem _ (List.mem_cons_self _ _)
    · exact List.mem_cons_of_mem _ (List.mem_cons_of_mem _ h)

theorem foldlMax_ub (x : ℚ) (xs : List ℚ) : ∀ v ∈ x :: xs, v ≤ xs.foldl max x := by
  induction xs generalizing x with
  | nil => intro v hv; rw [List.mem_singleton] at hv; simp [hv]
  | cons y t ih =>
    intro v hv
    rw [List.foldl_cons]
    rcases List.mem_cons.1 hv with rfl | hv2
    · exact le_trans (le_max_left v y) (ih (max v y) (max v y) (List.mem_cons_self _ _))
    · rcases List.mem_cons.1 hv2 with rfl | hv3
      · exact le_trans (le_max_right x v) (ih (max x v) _ (List.mem_cons_self _ _))
      · exact ih (max x y) v (List.mem_cons_of_mem _ hv3)

theorem foldlMin_mem (x : ℚ) (xs : List ℚ) : xs.foldl min x ∈ x :: xs := by
  induction xs generalizing x with
  | nil => simp
  | cons y t ih =>
    rw [List.foldl_cons]
    rcases List.mem_cons.1 (ih (min x y)) with h | h
    · rcases min_choice x y with hm | hm
      · rw [h, hm]; exact List.mem_cons_self _ _
      · rw [h, hm]; exact List.mem_cons_of_mem _ (List.mem_cons_self _ _)
    · exact List.mem_cons_of_mem _ (List.mem_cons_of_mem _ h)

theorem foldlMin_lb (x : ℚ) (xs : List ℚ) : ∀ v ∈ x :: xs, xs.foldl min x ≤ v := by
  induction xs generalizing x with
  | nil => intro v hv; rw [List.mem_singleton] at hv; simp [hv]
  | cons y t ih =>
    intro v hv
    rw [List.foldl_cons]
    rcases List.mem_cons.1 hv with rfl | hv2
    · exact le_trans (ih (min v y) (min v y) (List.mem_cons_self _ _)) (min_le_left v y)
    · rcases List.mem_cons.1 hv2 with rfl | hv3
      · exact le_trans (ih (min x v) _ (List.mem_cons_self _ _)) (min_le_right x v)
      · exact ih (min x y) v (List.mem_cons_of_mem _ hv3)

theorem insertAfterEq_pairwise {α : Type} (le : α → α → Bool)
    (htot : ∀ a b, le a b = true ∨ le b a = true)
    (htrans : ∀ a b c, le a b = true → le b c = true → le a c = true)
    (a : α) (l : List α) (hl : l.Pairwise (fun x y => le x y = true)) :
    (insertAfterEq le a l).Pairwise (fun x y => le x y = true) := by
  induction l with
  | nil => simp [insertAfterEq]
  | cons b t ih =>
    rw [List.pairwise_cons] at hl
    obtain ⟨hb, ht⟩ := hl
    rw [insertAfterEq]
    split
    case isTrue hba =>
      rw [List.pairwise_cons]
      refine ⟨?_, ih ht⟩
      intro y hy
      rcases List.mem_cons.1 ((insertAfterEq_perm le a t).mem_iff.1 hy) with rfl | hyt
      · exact hba
      · exact hb y hyt
    case isFalse hba =>
      rw [List.pairwise_cons]
      have hab : le a b = true := by
        rcases htot a b with h | h
        · exact h
        · exact absurd h hba
      refine ⟨?_, List.pairwise_cons.2 ⟨hb, ht⟩⟩
      intro y hy
      rcases List.mem_cons.1 hy with rfl | hyt
      · exact hab
      · exact htrans a b y hab (hb y hyt)

theorem stableSortBy_pairwise {α : Type} (le : α → α → Bool)
    (htot : ∀ a b, le a b = true ∨ le b a = true)
    (htrans : ∀ a b c, le a b = true → le b c = true → le a c = true)
    (l : List α) : (stableSortBy le l).Pairwise (fun x y => le x y = true) := by
  have key : ∀ (l acc : List α), acc.Pairwise (fun x y => le x y = true) →
      (l.foldl (fun acc x => insertAfterEq le x acc) acc).Pairwise (fun x y => le x y = true) := by
    intro l
    induction l with
    | nil => exact fun acc h => h
    | cons x t ih =>
      intro acc hacc
      exact ih _ (insertAfterEq_pairwise le htot htrans x acc hacc)
  exact key l [] (List.Pairwise.nil)

theorem decideLe_total : ∀ a b : ℚ, decide (a ≤ b) = true ∨ decide (b ≤ a) = true := by
  intro a b
  rcases le_total a b with h | h
  · exact Or.inl (decide_eq_true h)
  · exact Or.inr (decide_eq_true h)

theorem decideLe_trans : ∀ a b c : ℚ, decide (a ≤ b) = true → decide (b ≤ c) = true →
    decide (a ≤ c) = true := by
  intro a b c h1 h2
  exact decide_eq_true (le_trans (of_decide_eq_true h1) (of_decide_eq_true h2))

theorem shouldUseLogScale_iff (data : List ℚ) :
    shouldUseLogScale data = true ↔
      ∃ mx mn md : ℚ,
        (mx ∈ data.filter (fun v => decide (0 < v)) ∧
          ∀ v ∈ data.filter (fun v => decide (0 < v)), v ≤ mx) ∧
        (mn ∈ data.filter (fun v => decide (0 < v)) ∧
          ∀ v ∈ data.filter (fun v => decide (0 < v)), mn ≤ v) ∧
        (∃ l : List ℚ, l.Perm (data.filter (fun v => decide (0 < v))) ∧ l.Sorted (· ≤ ·) ∧
          md = l.getD ((data.filter (fun v => decide (0 < v))).length / 2) 0) ∧
        (100 < mx / mn ∨ 10 < mx / md) := by
  have hsorted : ∀ m : List ℚ, (stableSortBy (fun a b => decide (a ≤ b)) m).Sorted (· ≤ ·) :=
    fun m => (stableSortBy_pairwise _ decideLe_total decideLe_trans m).imp
      (fun h => of_decide_eq_true h)
  constructor
  · intro h
    simp only [shouldUseLogScale] at h
    split_ifs at h with h1 h2
    obtain ⟨x, xs, hV⟩ : ∃ x xs, data.filter (fun v => decide (0 < v)) = x :: xs := by
      rcases hE : data.filter (fun v => decide (0 < v)) with _ | ⟨x, xs⟩
      · rw [hE] at h2; simp at h2
      · exact ⟨x, xs, rfl⟩
    rw [Bool.or_eq_true, decide_eq_true_eq, decide_eq_true_eq] at h
    refine ⟨maxOfList (data.filter (fun v => decide (0 < v))),
      minOfList (data.filter (fun v => decide (0 < v))),
      (stableSortBy (fun a b => decide (a ≤ b)) (data.filter (fun v => decide (0 < v)))).getD
        ((data.filter (fun v => decide (0 < v))).length / 2) 0, ⟨?_, ?_⟩, ⟨?_, ?_⟩, ?_, ?_⟩
    · rw [hV, maxOfList]; exact foldlMax_mem x xs
    · rw [hV, maxOfList]; exact foldlMax_ub x xs
    · rw [hV, minOfList]; exact foldlMin_mem x xs
    · rw [hV, minOfList]; exact foldlMin_lb x xs
    · exact ⟨stableSortBy (fun a b => decide (a ≤ b)) (data.filter (fun v => decide (0 < v))),
        stableSortBy_perm _ _, hsorted _, rfl⟩
    · exact h
  · rintro ⟨mx, mn, md, ⟨hmxm, hmxu⟩, ⟨hmnm, hmnu⟩, ⟨l, hlp, hls, hmd⟩, hor⟩
    have hdne : data ≠ [] := List.ne_nil_of_mem (List.mem_filter.1 hmxm).1
    have hVne : data.filter (fun v => decide (0 < v)) ≠ [] := List.ne_nil_of_mem hmxm
    obtain ⟨x, xs, hV⟩ : ∃ x xs, data.filter (fun v => decide (0 < v)) = x :: xs := by
      rcases hE : data.filter (fun v => decide (0 < v)) with _ | ⟨x, xs⟩
      · exact absurd hE hVne
      · exact ⟨x, xs, rfl⟩
    have hmx : mx = maxOfList (data.filter (fun v => decide (0 < v))) := by
      rw [hV, maxOfList]
      rw [hV] at hmxm hmxu
      exact le_antisymm (foldlMax_ub x xs mx hmxm) (hmxu _ (foldlMax_mem x xs))
    have hmn : mn = minOfList (data.filter (fun v => decide (0 < v))) := by
      rw [hV, minOfList]
      rw [hV] at hmnm hmnu
      exact le_antisymm (hmnu _ (foldlMin_mem x xs)) (foldlMin_lb x xs mn hmnm)
    have hleq : l = stableSortBy (fun a b => decide (a ≤ b)) (data.filter (fun v => decide (0 < v))) :=
      List.eq_of_perm_of_sorted (hlp.trans (stableSortBy_perm _ _).symm) hls (hsorted _)
    simp only [shouldUseLogScale]
    rw [if_neg (by simpa using hdne), if_neg (by simpa using hVne)]
    rw [Bool.or_eq_true, decide_eq_true_eq, decide_eq_true_eq]
    rw [← hmx, ← hmn]
    rw [hleq] at hmd
    rw [← hmd]
    exact hor

/-- C7: shouldUseLogScale keeps the strictly positive values and answers
false when none remain; otherwise it answers true exactly when max / min
exceeds 100 or max / median exceeds 10, the median being the middle
element of the ascending sort of the kept values; in particular it
answers true on [1, 1, 1, 1000] and false on [10, 12, 9, 11]. -/
theorem c7_shouldUseLogScale_characterization :
    (∀ data : List ℚ,
      shouldUseLogScale data = true ↔
        ∃ mx mn md : ℚ,
          (mx ∈ data.filter (fun v => decide (0 < v)) ∧
            ∀ v ∈ data.filter (fun v => decide (0 < v)), v ≤ mx) ∧
          (mn ∈ data.filter (fun v => decide (0 < v)) ∧
            ∀ v ∈ data.filter (fun v => decide (0 < v)), mn ≤ v) ∧
          (∃ l : List ℚ, l.Perm (data.filter (fun v => decide (0 < v))) ∧ l.Sorted (· ≤ ·) ∧
            md = l.getD ((data.filter (fun v => decide (0 < v))).length / 2) 0) ∧
          (100 < mx / mn ∨ 10 < mx / md))
    ∧ shouldUseLogScale [1, 1, 1, 1000] = true
    ∧ shouldUseLogScale [10, 12, 9, 11] = false := by
  refine ⟨shouldUseLogScale_iff, ?_, ?_⟩
  · norm_num [shouldUseLogScale, List.filter, stableSortBy, insertAfterEq, maxOfList,
      minOfList, List.foldl]
  · norm_num [shouldUseLogScale, List.filter, stableSortBy, insertAfterEq, maxOfList,
      minOfList, List.foldl]

theorem ptLe_total : ∀ a b : TimePoint,
    decide (ptMs a ≤ ptMs b) = true ∨ decide (ptMs b ≤ ptMs a) = true := by
  intro a b
  rcases le_total (ptMs a) (ptMs b) with h | h
  · exact Or.inl (decide_eq_true h)
  · exact Or.inr (decide_eq_true h)

theorem ptLe_trans : ∀ a b c : TimePoint, decide (ptMs a ≤ ptMs b) = true →
    decide (ptMs b ≤ ptMs c) = true → decide (ptMs a ≤ ptMs c) = true := by
  intro a b c h1 h2
  exact decide_eq_true (le_trans (of_decide_eq_true h1) (of_decide_eq_true h2))

theorem groupStep_keys_nodup (cy : Int) (m : List GroupEntry) (p : TimePoint)
    (h : (m.map (fun e => e.key)).Nodup) :
    ((groupStep cy m p).map (fun e => e.key)).Nodup := by
  rcases hpd : p.date with _ | dv
  · simpa [groupStep, hpd] using h
  · simp only [groupStep, hpd]
    split_ifs with hv hf
    · have hkeys : ((m.map fun e =>
          if e.key == dv then GroupEntry.mk e.key (e.total + p.value) (e.accountCount + 1) else e).map
            (fun e => e.key)) = m.map (fun e => e.key) := by
        rw [List.map_map]
        apply List.map_congr_left
        intro e _
        simp only [Function.comp_apply]
        split <;> rfl
      rw [hkeys]
      exact h
    · rw [List.map_append]
      have hnot : dv ∉ m.map (fun e => e.key) := by
        intro hmem
        rcases List.mem_map.1 hmem with ⟨e, hem, hek⟩
        rw [Option.not_isSome_iff_eq_none, List.find?_eq_none] at hf
        exact absurd (by rw [hek]; exact beq_self_eq_true dv : (e.key == dv) = true) (hf e hem)
      simp [List.nodup_append, h, hnot]
    · exact h

theorem groupFold_keys_nodup (cy : Int) (pts : List TimePoint) (m : List GroupEntry)
    (h : (m.map (fun e => e.key)).Nodup) :
    ((pts.foldl (groupStep cy) m).map (fun e => e.key)).Nodup := by
  induction pts generalizing m with
  | nil => exact h
  | cons p t ih => exact ih _ (groupStep_keys_nodup cy m p h)

theorem combineHistories_sorted_nodup (cy : Int) (N : Nat) (pts : List TimePoint) :
    (combineHistories cy N pts).Sorted (fun a b => ptMs a ≤ ptMs b) ∧
    ((combineHistories cy N pts).map (fun p => p.date)).Nodup := by
  constructor
  · unfold combineHistories sortPointsByDate
    exact (stableSortBy_pairwise _ ptLe_total ptLe_trans _).imp (fun h => of_decide_eq_true h)
  · unfold combineHistories sortPointsByDate
    rw [List.Perm.nodup_iff ((stableSortBy_perm (fun a b => decide (ptMs a ≤ ptMs b)) _).map
      (fun p => p.date))]
    have h0 : ((pts.foldl (groupStep cy) []).map (fun e => e.key)).Nodup :=
      groupFold_keys_nodup cy pts [] (by simp)
    have h1 : (((pts.foldl (groupStep cy) []).filter
        (fun e => e.accountCount == N)).map (fun e => e.key)).Nodup :=
      ((List.filter_sublist _).map _).nodup h0
    have h2 : (((pts.foldl (groupStep cy) []).filter
        (fun e => e.accountCount == N)).map (fun e => (some e.key : JSDate))).Nodup := by
      have := h1.map (Option.some_injective DateVal)
      rwa [List.map_map] at this
    have h3 : ((((pts.foldl (groupStep cy) []).filter (fun e => e.accountCount == N)).map
        (fun e => TimePoint.mk (some e.key) e.total)).map (fun p => p.date)).Nodup := by
      rw [List.map_map]
      exact h2
    exact ((List.filter_sublist _).map _).nodup h3

/-- C6 amended: the aggregator's combined histories are ordered ascending
by date (first element earliest) and contain at most one point per
timestamp; the per-account normalizer histories, by contrast, follow the
sheet's header column order and are neither sorted nor deduplicated. -/
theorem c6_amended (cy now : Int) (pf : Platform) (wb : Workbook) (r : TimeRange) :
    ((parseMoonMediaTotal cy now pf wb r).followersHistory.Sorted (fun a b => ptMs a ≤ ptMs b) ∧
      ((parseMoonMediaTotal cy now pf wb r).followersHistory.map (fun p => p.date)).Nodup) ∧
    ((parseMoonMediaTotal cy now pf wb r).totalLikesHistory.Sorted (fun a b => ptMs a ≤ ptMs b) ∧
      ((parseMoonMediaTotal cy now pf wb r).totalLikesHistory.map (fun p => p.date)).Nodup) :=
  ⟨combineHistories_sorted_nodup cy wb.sheetNames.length _,
   combineHistories_sorted_nodup cy wb.sheetNames.length _⟩

/-- C6 counterexample: a per-account history is emitted in header column
order; with headers running [day 2, day 1] the TikTok followers history is
not ordered ascending by date. -/
theorem c6_counterexample :
    ¬ ((parseAccountDataTikTok 2025 0 fxWbRev "a" TimeRange.all).followersHistory.Sorted
        (fun a b => ptMs a ≤ ptMs b)) := by decide

theorem vmFind_cons (x : String × VideoObj) (t : VideosMap) (id : String) :
    vmFind (x :: t) id = if (x.1 == id) = true then some x.2 else vmFind t id := by
  by_cases h : (x.1 == id) = true <;> simp [vmFind, List.find?_cons, h]

theorem vmFind_map_upd (m : VideosMap) (pid : String) (g : VideoObj → VideoObj) (id : String) :
    vmFind (m.map (fun e => if (e.1 == pid) = true then (e.1, g e.2) else e)) id
      = if pid = id then (vmFind m id).map g else vmFind m id := by
  induction m with
  | nil => by_cases h : pid = id <;> simp [vmFind, h]
  | cons e t ih =>
    rcases e with ⟨k, v⟩
    by_cases hkp : (k == pid) = true
    · have hkp2 : k = pid := by simpa using hkp
      subst hkp2
      simp only [List.map_cons, if_pos hkp]
      rw [vmFind_cons, vmFind_cons]
      by_cases hki : (k == id) = true
      · have : k = id := by simpa using hki
        subst this
        simp [hki]
      · have hne : ¬ k = id := by simpa using hki
        simp only [hki, if_neg hne, if_false]
        rw [ih]
        simp [if_neg hne, hne]
    · simp only [List.map_cons, if_neg hkp]
      rw [vmFind_cons, vmFind_cons]
      by_cases hki : (k == id) = true
      · have hpk : ¬ pid = id := by
          intro hpi
          subst hpi
          have : k = pid := by simpa using hki
          exact hkp (by simpa using this)
        simp [hki, hpk]
      · simp only [hki, if_false]
        exact ih

theorem objGet_objSet (v : VideoObj) (pm metric : String) (c : CellVal) (hm : metric ≠ "id") :
    objGet (objSet v pm c) metric
      = (objGet v metric).or (if pm = metric then some c else none) := by
  unfold objSet objHas
  by_cases hpm : pm = metric
  · subst hpm
    have hid : (pm == "id") = false := by
      rw [beq_eq_false_iff_ne]
      exact hm
    rw [hid, Bool.false_or]
    by_cases hhas : (v.attrs.find? (fun a => a.1 == pm)).isSome = true
    · rw [if_pos hhas]
      obtain ⟨w, hw⟩ := Option.isSome_iff_exists.1 hhas
      unfold objGet
      rw [hw]
      simp
    · rw [if_neg hhas]
      unfold objGet
      rw [Option.not_isSome_iff_eq_none] at hhas
      simp only []
      rw [List.find?_append, hhas]
      simp [List.find?_cons]
  · have hif : (if pm = metric then (some c : Option CellVal) else none) = none := if_neg hpm
    rw [hif, Option.or_none]
    split
    · rfl
    · unfold objGet
      simp only []
      rw [List.find?_append]
      have hnone : List.find? (fun a => a.1 == metric) [(pm, c)] = none := by
        simp [List.find?_cons, beq_eq_false_iff_ne, hpm]
      rw [hnone, Option.or_none]

theorem recordedAttr_vmStore (m : VideosMap) (pid pm : String) (c : CellVal)
    (id metric : String) (hm : metric ≠ "id") :
    recordedAttr (vmStore m pid pm c) id metric
      = (recordedAttr m id metric).or (if pid = id ∧ pm = metric then some c else none) := by
  unfold vmStore
  by_cases hf : (m.find? (fun e => e.1 == pid)).isSome = true
  · rw [if_pos hf]
    unfold recordedAttr
    rw [vmFind_map_upd m pid (fun v => objSet v pm c) id]
    by_cases hpi : pid = id
    · subst hpi
      rw [if_pos rfl]
      rcases hV : vmFind m pid with _ | v
      · exfalso
        have : (vmFind m pid).isSome = true := by simp [vmFind, hf]
        rw [hV] at this
        exact Bool.noConfusion this
      · simp [objGet_objSet v pm metric c hm]
    · rw [if_neg hpi]
      simp [hpi]
  · rw [if_neg hf]
    unfold recordedAttr vmFind
    rw [Option.not_isSome_iff_eq_none] at hf
    rw [List.find?_append]
    by_cases hpi : pid = id
    · subst hpi
      rw [hf]
      simp only [Option.none_or]
      have hfind : List.find? (fun e => e.1 == pid) [(pid, objSet (VideoObj.mk pid []) pm c)]
          = some (pid, objSet (VideoObj.mk pid []) pm c) := by
        simp [List.find?_cons]
      rw [hfind]
      have hempty : objGet (VideoObj.mk pid []) metric = none := by
        simp [objGet, List.find?]
      simp [objGet_objSet _ pm metric c hm, hempty]
    · have hfind : List.find? (fun e => e.1 == id) [(pid, objSet (VideoObj.mk pid []) pm c)]
          = none := by
        simp [List.find?_cons, beq_eq_false_iff_ne, hpi]
      rw [hfind, Option.or_none]
      simp [hpi]

theorem tk_uniq_videosMap (st : TKState) (ids : List String) (b : Prop) [Decidable b] :
    (if b then { st with uniqueIds := ids } else st).videosMap = st.videosMap := by
  split <;> rfl

theorem recordedAttr_tkStep (cy : Int) (headers : List Cell) (st : TKState) (row : Row)
    (id metric : String) (hm : metric ≠ "id") :
    recordedAttr (tkStep cy headers st row).videosMap id metric
      = (recordedAttr st.videosMap id metric).or
          (if isPostRowFor id metric row = true then rightmostNonEmpty row.cells else none) := by
  rcases row with ⟨name, cells⟩
  rcases name with _ | n
  · simp [tkStep, isPostRowFor]
  · by_cases h1 : (n == "followers") = true
    · have hsw : strStartsWith n "post_" = false := by
        have he : n = "followers" := by simpa using h1
        subst he
        decide
      simp [tkStep, isPostRowFor, h1, hsw]
    · by_cases h2 : (n == "total_likes") = true
      · have hsw : strStartsWith n "post_" = false := by
          have he : n = "total_likes" := by simpa using h2
          subst he
          decide
        simp [tkStep, isPostRowFor, h1, h2, hsw]
      · by_cases h3 : (n == "posts_scraped") = true
        · have hsw : strStartsWith n "post_" = false := by
            have he : n = "posts_scraped" := by simpa using h3
            subst he
            decide
          simp [tkStep, isPostRowFor, h1, h2, h3, hsw]
        · by_cases h4 : strStartsWith n "post_" = true
          · rcases hr : rightmostNonEmpty cells with _ | c
            · by_cases hd : ((splitRowName n).2 == "Date") = true <;>
                simp [tkStep, isPostRowFor, h1, h2, h3, h4, hd, hr]
            · by_cases hc : (splitRowName n).1 = id ∧ (splitRowName n).2 = metric
              · by_cases hd : ((splitRowName n).2 == "Date") = true <;>
                  simp [tkStep, isPostRowFor, h1, h2, h3, h4, hd, hr, tk_uniq_videosMap,
                    recordedAttr_vmStore _ _ _ _ _ _ hm, hc.1, hc.2]
              · have hcb : ((splitRowName n).1 == id && (splitRowName n).2 == metric) = false := by
                  rcases not_and_or.1 hc with hx | hx
                  · exact Bool.and_eq_false_iff.2 (Or.inl (beq_eq_false_iff_ne.2 hx))
                  · exact Bool.and_eq_false_iff.2 (Or.inr (beq_eq_false_iff_ne.2 hx))
                by_cases hd : ((splitRowName n).2 == "Date") = true <;>
                  simp [tkStep, isPostRowFor, h1, h2, h3, h4, hd, hr, tk_uniq_videosMap,
                    recordedAttr_vmStore _ _ _ _ _ _ hm, hc, hcb]
          · simp [tkStep, isPostRowFor, h1, h2, h3, h4]

theorem recordedAttr_tkFoldl (cy : Int) (headers : List Cell) (rows : List Row) (st : TKState)
    (id metric : String) (hm : metric ≠ "id") :
    recordedAttr ((rows.foldl (tkStep cy headers) st).videosMap) id metric
      = (recordedAttr st.videosMap id metric).or
          (((rows.filter (isPostRowFor id metric)).filterMap
            (fun r => rightmostNonEmpty r.cells)).head?) := by
  induction rows generalizing st with
  | nil => simp
  | cons r t ih =>
    rw [List.foldl_cons]
    rw [ih (tkStep cy headers st r)]
    rw [recordedAttr_tkStep cy headers st r id metric hm]
    rw [Option.or_assoc]
    congr 1
    by_cases hr : isPostRowFor id metric r = true
    · rw [if_pos hr, List.filter_cons_of_pos hr]
      rcases hc : rightmostNonEmpty r.cells with _ | c <;> simp [hc]
    · rw [if_neg hr, List.filter_cons_of_neg (by simpa using hr)]
      simp

theorem metricMapping_ne_id (lm mapped : String) (h : metricMapping lm = some mapped) :
    mapped ≠ "id" := by
  unfold metricMapping at h
  split_ifs at h <;> (injection h with h2; subst h2; decide)

theorem ig_uniq_videosMap (st : IGState) (ids : List String) (b : Prop) [Decidable b] :
    (if b then { st with uniqueIds := ids } else st).videosMap = st.videosMap := by
  split <;> rfl

theorem recordedAttr_igStep (cy : Int) (headers : List Cell) (st : IGState) (row : Row)
    (id mapped : String) (hmap : mapped ≠ "id") :
    recordedAttr (igStep cy headers st row).videosMap id mapped
      = (recordedAttr st.videosMap id mapped).or
          (if isReelRowFor id mapped row = true then rightmostNonEmpty row.cells else none) := by
  rcases row with ⟨name, cells⟩
  rcases name with _ | n
  · simp [igStep, isReelRowFor]
  · by_cases h1 : (n == "followers") = true
    · have hsw : strStartsWith n "reel_" = false := by
        have he : n = "followers" := by simpa using h1
        subst he
        decide
      simp [igStep, isReelRowFor, h1, hsw]
    · by_cases h2 : (n == "reels_scraped") = true
      · have hsw : strStartsWith n "reel_" = false := by
          have he : n = "reels_scraped" := by simpa using h2
          subst he
          decide
        simp [igStep, isReelRowFor, h1, h2, hsw]
      · by_cases h4 : strStartsWith n "reel_" = true
        · by_cases h5 : ((splitRowName n).2 == "date_display") = true
          · have hmm0 : metricMapping (splitRowName n).2 = none := by
              have he : (splitRowName n).2 = "date_display" := by simpa using h5
              rw [he]
              decide
            simp [igStep, isReelRowFor, h1, h2, h4, h5, hmm0, ig_uniq_videosMap]
          · rcases hmm1 : metricMapping (splitRowName n).2 with _ | mapped2
            · simp [igStep, isReelRowFor, h1, h2, h4, h5, hmm1, ig_uniq_videosMap]
            · rcases hr : rightmostNonEmpty cells with _ | c
              · simp [igStep, isReelRowFor, h1, h2, h4, h5, hmm1, hr, ig_uniq_videosMap]
              · by_cases hc : (splitRowName n).1 = id ∧ mapped2 = mapped
                · simp [igStep, isReelRowFor, h1, h2, h4, h5, hmm1, hr, ig_uniq_videosMap,
                    recordedAttr_vmStore _ _ _ _ _ _ hmap, hc.1, hc.2]
                · have hcb : ((splitRowName n).1 == id
                      && ((some mapped2 : Option String) == some mapped)) = false := by
                    rcases not_and_or.1 hc with hx | hx
                    · exact Bool.and_eq_false_iff.2 (Or.inl (beq_eq_false_iff_ne.2 hx))
                    · refine Bool.and_eq_false_iff.2 (Or.inr (beq_eq_false_iff_ne.2 ?_))
                      intro hsome
                      exact hx (Option.some.injEq mapped2 mapped ▸ hsome ▸ rfl)
                  simp [igStep, isReelRowFor, h1, h2, h4, h5, hmm1, hr, ig_uniq_videosMap,
                    recordedAttr_vmStore _ _ _ _ _ _ hmap, hc, hcb]
        · simp [igStep, isReelRowFor, h1, h2, h4]

theorem recordedAttr_igFoldl (cy : Int) (headers : List Cell) (rows : List Row) (st : IGState)
    (id mapped : String) (hmap : mapped ≠ "id") :
    recordedAttr ((rows.foldl (igStep cy headers) st).videosMap) id mapped
      = (recordedAttr st.videosMap id mapped).or
          (((rows.filter (isReelRowFor id mapped)).filterMap
            (fun r => rightmostNonEmpty r.cells)).head?) := by
  induction rows generalizing st with
  | nil => simp
  | cons r t ih =>
    rw [List.foldl_cons]
    rw [ih (igStep cy headers st r)]
    rw [recordedAttr_igStep cy headers st r id mapped hmap]
    rw [Option.or_assoc]
    congr 1
    by_cases hr : isReelRowFor id mapped r = true
    · rw [if_pos hr, List.filter_cons_of_pos hr]
      rcases hc : rightmostNonEmpty r.cells with _ | c <;> simp [hc]
    · rw [if_neg hr, List.filter_cons_of_neg (by simpa using hr)]
      simp

/-- C8: for both normalizers, the value recorded for an attribute of a
post/reel id is the rightmost non-blank cell of the first matching
attribute row that has any non-blank cell: a cell further left never
overrides it, nor does a later row for the same id and attribute (for
Instagram the attribute is reached through the metric-name mapping). -/
theorem c8_rightmost_nonblank_wins :
    (∀ (cy : Int) (headers : List Cell) (rows : List Row) (id metric : String),
      metric ≠ "id" →
      recordedAttr ((rows.foldl (tkStep cy headers) initTKState).videosMap) id metric
        = ((rows.filter (isPostRowFor id metric)).filterMap
            (fun r => rightmostNonEmpty r.cells)).head?)
    ∧ (∀ (cy : Int) (headers : List Cell) (rows : List Row) (id lm mapped : String),
      metricMapping lm = some mapped →
      recordedAttr ((rows.foldl (igStep cy headers) initIGState).videosMap) id mapped
        = ((rows.filter (isReelRowFor id mapped)).filterMap
            (fun r => rightmostNonEmpty r.cells)).head?) := by
  constructor
  · intro cy headers rows id metric hm
    rw [recordedAttr_tkFoldl cy headers rows initTKState id metric hm]
    simp [recordedAttr, vmFind, initTKState]
  · intro cy headers rows id lm mapped hlm
    rw [recordedAttr_igFoldl cy headers rows initIGState id mapped (metricMapping_ne_id lm mapped hlm)]
    simp [recordedAttr, vmFind, initIGState]

/-- Witness for C8: concrete duplicated rows where the rightmost
non-blank of the first row wins. -/
theorem c8_witness :
    recordedAttr ((fxRowsC8tk.foldl (tkStep 2025 []) initTKState).videosMap) "X" "Views"
        = fxNumCell 7
    ∧ recordedAttr ((fxRowsC8ig.foldl (igStep 2025 []) initIGState).videosMap) "Y" "Views"
        = fxNumCell 3 := by
  constructor
  · rw [c8_rightmost_nonblank_wins.1 2025 [] fxRowsC8tk "X" "Views" (by decide)]
    decide
  · rw [c8_rightmost_nonblank_wins.2 2025 [] fxRowsC8ig "Y" "views" "Views" (by decide)]
    decide

theorem find?_key_map (m : List GroupEntry) (g : GroupEntry → GroupEntry)
    (hg : ∀ e, (g e).key = e.key) (dv : DateVal) :
    (m.map g).find? (fun e => e.key == dv) = (m.find? (fun e => e.key == dv)).map g := by
  induction m with
  | nil => rfl
  | cons e t ih =>
    rw [List.map_cons]
    by_cases he : (e.key == dv) = true <;>
      simp [List.find?_cons, hg e, he, ih]

theorem groupStep_find (cy : Int) (m : List GroupEntry) (p : TimePoint) (dv : DateVal) :
    (groupStep cy m p).find? (fun e => e.key == dv)
      = if p.date = some dv ∧ isValidDate cy (some dv) = true then
          match m.find? (fun e => e.key == dv) with
          | some e => some (GroupEntry.mk e.key (e.total + p.value) (e.accountCount + 1))
          | none => some (GroupEntry.mk dv p.value 1)
        else m.find? (fun e => e.key == dv) := by
  rcases hpd : p.date with _ | dv2
  · rw [if_neg (by simp [hpd])]
    simp [groupStep, hpd]
  · simp only [groupStep, hpd]
    by_cases hv : isValidDate cy (some dv2) = true
    · rw [if_pos hv]
      by_cases hfs : (m.find? (fun e => e.key == dv2)).isSome = true
      · rw [if_pos hfs]
        have hkey : ∀ e : GroupEntry,
            ((if e.key == dv2 then
              GroupEntry.mk e.key (e.total + p.value) (e.accountCount + 1) else e)).key = e.key := by
          intro e
          split <;> rfl
        rw [find?_key_map m _ hkey dv]
        by_cases hdd : dv2 = dv
        · subst hdd
          rw [if_pos ⟨rfl, hv⟩]
          rcases he : m.find? (fun e => e.key == dv2) with _ | e
          · rw [he] at hfs
            exact absurd hfs (by simp)
          · have hek : (e.key == dv2) = true :=
              @List.find?_some _ (fun x => x.key == dv2) e m he
            have hek2 : e.key = dv2 := by simpa using hek
            simp [he, hek2]
        · rw [if_neg (by intro h; exact hdd (Option.some.injEq dv2 dv ▸ h.1 ▸ rfl))]
          rcases he : m.find? (fun e => e.key == dv) with _ | e
          · rw [he]
            rfl
          · have hek : (e.key == dv) = true :=
              @List.find?_some _ (fun x => x.key == dv) e m he
            have hek2 : e.key = dv := by simpa using hek
            have hne : (e.key == dv2) = false := by
              rw [beq_eq_false_iff_ne, hek2]
              intro hh
              exact hdd hh.symm
            simp [he, hne]
            intro hh
            rw [hek2] at hh
            exact absurd hh.symm hdd
      · rw [if_neg hfs]
        rw [List.find?_append]
        rw [Option.not_isSome_iff_eq_none] at hfs
        by_cases hdd : dv2 = dv
        · subst hdd
          rw [if_pos ⟨rfl, hv⟩, hfs]
          simp [List.find?_cons]
        · rw [if_neg (by intro h; exact hdd (Option.some.injEq dv2 dv ▸ h.1 ▸ rfl))]
          have : List.find? (fun e => e.key == dv) [GroupEntry.mk dv2 p.value 1] = none := by
            simp [List.find?_cons, beq_eq_false_iff_ne.2 hdd]
          rw [this, Option.or_none]
    · rw [if_neg hv]
      rw [if_neg ?_]
      intro h
      have : dv2 = dv := by
        have := h.1
        simpa using this
      subst this
      exact hv h.2

theorem groupFold_find (cy : Int) (pts : List TimePoint) (m : List GroupEntry) (dv : DateVal) :
    ((pts.foldl (groupStep cy) m).find? (fun e => e.key == dv))
      = match m.find? (fun e => e.key == dv) with
        | some e => some (GroupEntry.mk e.key
            (e.total + ((pts.filter (fun p => p.date == some dv && isValidDate cy p.date)).map
              (fun p => p.value)).sum)
            (e.accountCount +
              (pts.filter (fun p => p.date == some dv && isValidDate cy p.date)).length))
        | none =>
          if (pts.filter (fun p => p.date == some dv && isValidDate cy p.date)) = [] then none
          else some (GroupEntry.mk dv
            (((pts.filter (fun p => p.date == some dv && isValidDate cy p.date)).map
              (fun p => p.value)).sum)
            ((pts.filter (fun p => p.date == some dv && isValidDate cy p.date)).length)) := by
  induction pts generalizing m with
  | nil =>
    rcases hf : m.find? (fun e => e.key == dv) with _ | e <;> simp [hf]
  | cons p t ih =>
    rw [List.foldl_cons]
    rw [ih (groupStep cy m p)]
    rw [groupStep_find cy m p dv]
    by_cases hC : p.date = some dv ∧ isValidDate cy (some dv) = true
    · rw [if_pos hC]
      have hpred : (fun q : TimePoint => q.date == some dv && isValidDate cy q.date) p = true := by
        simp only []
        rw [hC.1]
        simp [hC.2]
      rw [@List.filter_cons_of_pos _ (fun q : TimePoint => q.date == some dv && isValidDate cy q.date) p t hpred]
      rcases hf : m.find? (fun e => e.key == dv) with _ | e
      · simp only [hf]
        rw [if_neg (by simp)]
        simp only [List.map_cons, List.sum_cons, List.length_cons, Option.some.injEq,
          GroupEntry.mk.injEq, true_and]
        omega
      · simp only [hf]
        simp only [List.map_cons, List.sum_cons, List.length_cons, Option.some.injEq,
          GroupEntry.mk.injEq, true_and]
        refine ⟨by omega, by omega⟩
    · rw [if_neg hC]
      have hpred : (fun q : TimePoint => q.date == some dv && isValidDate cy q.date) p = false := by
        simp only []
        by_cases hd : p.date = some dv
        · have hv : isValidDate cy (some dv) = false := by
            cases hb : isValidDate cy (some dv)
            · rfl
            · exact absurd ⟨hd, hb⟩ hC
          rw [hd, hv]
          simp
        · simp [beq_eq_false_iff_ne.2 hd]
      rw [@List.filter_cons_of_neg _ (fun q : TimePoint => q.date == some dv && isValidDate cy q.date) p t (by simp [hpred])]

theorem find?_eq_some_of_mem_nodup (m : List GroupEntry)
    (hnd : (m.map (fun e => e.key)).Nodup) (e : GroupEntry) (he : e ∈ m) :
    m.find? (fun x => x.key == e.key) = some e := by
  induction m with
  | nil => cases he
  | cons a t ih =>
    rw [List.map_cons, List.nodup_cons] at hnd
    rcases List.mem_cons.1 he with rfl | het
    · simp [List.find?_cons]
    · have hne : (a.key == e.key) = false := by
        rw [beq_eq_false_iff_ne]
        intro hh
        exact hnd.1 (hh ▸ List.mem_map_of_mem (fun x => x.key) het)
    
      simp [List.find?_cons, hne, ih hnd.2 het]

theorem mem_combineHistories_iff (cy : Int) (N : Nat) (pts : List TimePoint)
    (dv : DateVal) (v : Int) :
    TimePoint.mk (some dv) v ∈ combineHistories cy N pts ↔
      ∃ e : GroupEntry, (pts.foldl (groupStep cy) []).find? (fun x => x.key == dv) = some e ∧
        e.accountCount = N ∧ e.total = v ∧ isValidDate cy (some dv) = true ∧ 0 < v := by
  unfold combineHistories sortPointsByDate
  rw [(stableSortBy_perm _ _).mem_iff]
  rw [List.mem_filter]
  constructor
  · rintro ⟨hmem, hcond⟩
    rcases List.mem_map.1 hmem with ⟨e, hef, heq⟩
    rcases List.mem_filter.1 hef with ⟨heg, hcount⟩
    have hkeyv : e.key = dv ∧ e.total = v := by
      have h1 := congrArg TimePoint.date heq
      have h2 := congrArg TimePoint.value heq
      simp only [] at h1 h2
      exact ⟨by injection h1, h2⟩
    simp only [Bool.and_eq_true, decide_eq_true_eq] at hcond
    refine ⟨e, ?_, by simpa using hcount, hkeyv.2, hcond.1, ?_⟩
    · rw [← hkeyv.1]
      exact find?_eq_some_of_mem_nodup _ (groupFold_keys_nodup cy pts [] (by simp)) e heg
    · rw [← hkeyv.2]
      rw [← hkeyv.2] at hcond
      exact hcond.2
  · rintro ⟨e, hfind, hcount, htot, hvalid, hpos⟩
    have hmem : e ∈ pts.foldl (groupStep cy) [] := List.mem_of_find?_eq_some hfind
    have hkey : (e.key == dv) = true := @List.find?_some _ (fun x => x.key == dv) e _ hfind
    have hkey2 : e.key = dv := by simpa using hkey
    constructor
    · exact List.mem_map.2 ⟨e, List.mem_filter.2 ⟨hmem, by simp [hcount]⟩,
        by rw [hkey2, htot]⟩
    · simp [hvalid, hpos]

theorem pointsAt_len_le_one (dv : DateVal) (h : List TimePoint)
    (hnd : (h.map (fun p => p.date)).Nodup) : (pointsAt dv h).length ≤ 1 := by
  induction h with
  | nil => simp [pointsAt]
  | cons p t ih =>
    rw [List.map_cons, List.nodup_cons] at hnd
    unfold pointsAt at *
    by_cases hp : (p.date == some dv) = true
    · rw [@List.filter_cons_of_pos _ (fun q : TimePoint => q.date == some dv) p t hp]
      have hpd : p.date = some dv := by simpa using hp
      have hrest : t.filter (fun q => q.date == some dv) = [] := by
        apply List.filter_eq_nil_iff.2
        intro q hq
        intro hqq
        apply hnd.1
        have hqd : q.date = some dv := by simpa using hqq
        rw [hpd, ← hqd]
        exact List.mem_map_of_mem _ hq
      rw [hrest]
      simp
    · rw [@List.filter_cons_of_neg _ (fun q : TimePoint => q.date == some dv) p t (by simp [hp])]
      exact ih hnd.2

theorem sum_eq_length_forces_ones (l : List Nat) (hle : ∀ x ∈ l, x ≤ 1)
    (hs : l.sum = l.length) : ∀ x ∈ l, x = 1 := by
  induction l with
  | nil => intro x hx; cases hx
  | cons a t ih =>
    have hts : t.sum ≤ t.length := by
      have := List.sum_le_card_nsmul t 1 (fun x hx => hle x (List.mem_cons_of_mem a hx))
      simpa using this
    rw [List.sum_cons, List.length_cons] at hs
    have ha : a = 1 := by
      have := hle a (List.mem_cons_self a t)
      omega
    intro x hx
    rcases List.mem_cons.1 hx with rfl | hxt
    · exact ha
    · exact ih (fun y hy => hle y (List.mem_cons_of_mem a hy)) (by omega) x hxt

theorem ones_sum (l : List Nat) (h : ∀ x ∈ l, x = 1) : l.sum = l.length := by
  induction l with
  | nil => rfl
  | cons a t ih =>
    rw [List.sum_cons, List.length_cons, h a (List.mem_cons_self a t),
      ih (fun y hy => h y (List.mem_cons_of_mem a hy))]
    omega

theorem combineHistories_mem_iff (cy : Int) (names : List String) (H : String → List TimePoint)
    (hne : names ≠ [])
    (hval : ∀ s ∈ names, ∀ p ∈ H s, isValidDate cy p.date = true ∧ 0 < p.value)
    (hdupH : ∀ s ∈ names, ((H s).map (fun p => p.date)).Nodup)
    (dv : DateVal) (v : Int) :
    TimePoint.mk (some dv) v ∈ combineHistories cy names.length ((names.map H).flatten) ↔
      ((∀ s ∈ names, ∃ p ∈ H s, p.date = some dv) ∧
        v = (names.map (fun s => ((pointsAt dv (H s)).map (fun p => p.value)).sum)).sum) := by
  have hflat : ((names.map H).flatten).filter
        (fun p => p.date == some dv && isValidDate cy p.date)
      = (names.map (fun s => pointsAt dv (H s))).flatten := by
    rw [List.filter_flatten]
    rw [List.map_map]
    congr 1
    apply List.map_congr_left
    intro s hs
    show (H s).filter (fun p => p.date == some dv && isValidDate cy p.date) = pointsAt dv (H s)
    unfold pointsAt
    apply List.filter_congr
    intro p hp
    rw [(hval s hs p hp).1]
    simp
  have hlen1 : ∀ s ∈ names, (pointsAt dv (H s)).length ≤ 1 :=
    fun s hs => pointsAt_len_le_one dv (H s) (hdupH s hs)
  have hlen : ((names.map (fun s => pointsAt dv (H s))).flatten).length
      = (names.map (fun s => (pointsAt dv (H s)).length)).sum := by
    rw [List.length_flatten, List.map_map]
    rfl
  have hsumv : (((names.map (fun s => pointsAt dv (H s))).flatten).map (fun p => p.value)).sum
      = (names.map (fun s => ((pointsAt dv (H s)).map (fun p => p.value)).sum)).sum := by
    rw [List.map_flatten, List.sum_flatten, List.map_map, List.map_map]
    rfl
  rw [mem_combineHistories_iff]
  rw [groupFold_find]
  constructor
  · rintro ⟨e, hfind, hcount, htot, hvalid, hpos⟩
    simp only [List.find?_nil] at hfind
    by_cases hc0 : ((names.map H).flatten).filter
        (fun p => p.date == some dv && isValidDate cy p.date) = []
    · rw [if_pos hc0] at hfind
      exact Option.noConfusion hfind
    · rw [if_neg hc0] at hfind
      have he := Option.some.injEq _ _ ▸ hfind
      have hE : e = GroupEntry.mk dv
          ((((names.map H).flatten).filter
            (fun p => p.date == some dv && isValidDate cy p.date)).map (fun p => p.value)).sum
          (((names.map H).flatten).filter
            (fun p => p.date == some dv && isValidDate cy p.date)).length := by
        injection hfind with hh
        exact hh.symm
      have hcnt : (names.map (fun s => (pointsAt dv (H s)).length)).sum = names.length := by
        have := hcount
        rw [hE] at this
        simp only [] at this
        rw [hflat] at this
        rw [hlen] at this
        exact this
      have hones : ∀ x ∈ names.map (fun s => (pointsAt dv (H s)).length), x = 1 := by
        apply sum_eq_length_forces_ones
        · intro x hx
          rcases List.mem_map.1 hx with ⟨s, hs, hxs⟩
          rw [← hxs]
          exact hlen1 s hs
        · rw [hcnt, List.length_map]
      constructor
      · intro s hs
        have h1 : (pointsAt dv (H s)).length = 1 :=
          hones _ (List.mem_map_of_mem _ hs)
        rcases List.length_eq_one.1 h1 with ⟨p, hp⟩
        have hpm : p ∈ pointsAt dv (H s) := by rw [hp]; exact List.mem_cons_self p []
        unfold pointsAt at hpm
        rcases List.mem_filter.1 hpm with ⟨hpmem, hpd⟩
        exact ⟨p, hpmem, by simpa using hpd⟩
      · rw [htot.symm, hE]
        simp only []
        rw [hflat, hsumv]
  · rintro ⟨hall, hsum⟩
    have h1each : ∀ s ∈ names, (pointsAt dv (H s)).length = 1 := by
      intro s hs
      rcases hall s hs with ⟨p, hpm, hpd⟩
      have hin : p ∈ pointsAt dv (H s) := by
        unfold pointsAt
        exact List.mem_filter.2 ⟨hpm, by rw [hpd]; exact beq_self_eq_true (some dv)⟩
      have hge : 0 < (pointsAt dv (H s)).length := List.length_pos_of_mem hin
      have := hlen1 s hs
      omega
    have hc0 : ¬ (((names.map H).flatten).filter
        (fun p => p.date == some dv && isValidDate cy p.date) = []) := by
      rw [hflat]
      intro hnil
      have hlen0 : ((names.map (fun s => pointsAt dv (H s))).flatten).length = 0 := by
        rw [hnil]
        rfl
      rw [hlen] at hlen0
      have hsum1 : (names.map (fun s => (pointsAt dv (H s)).length)).sum = names.length := by
        rw [ones_sum _ ?_, List.length_map]
        intro x hx
        rcases List.mem_map.1 hx with ⟨s, hs, hxs⟩
        rw [← hxs]
        exact h1each s hs
      rw [hsum1] at hlen0
      exact hne (List.length_eq_zero.1 hlen0)
    refine ⟨GroupEntry.mk dv
      ((((names.map H).flatten).filter
        (fun p => p.date == some dv && isValidDate cy p.date)).map (fun p => p.value)).sum
      (((names.map H).flatten).filter
        (fun p => p.date == some dv && isValidDate cy p.date)).length,
      ?_, ?_, ?_, ?_, ?_⟩
    · simp only [List.find?_nil]
      rw [if_neg hc0]
    · simp only []
      rw [hflat, hlen]
      rw [ones_sum _ ?_, List.length_map]
      intro x hx
      rcases List.mem_map.1 hx with ⟨s, hs, hxs⟩
      rw [← hxs]
      exact h1each s hs
    · simp only []
      rw [hflat, hsumv]
      exact hsum.symm
    · rcases List.exists_mem_of_ne_nil names hne with ⟨s0, hs0⟩
      rcases hall s0 hs0 with ⟨p, hpm, hpd⟩
      have := (hval s0 hs0 p hpm).1
      rwa [hpd] at this
    · rw [hsum]
      apply List.sum_pos
      · intro x hx
        rcases List.mem_map.1 hx with ⟨s, hs, hxs⟩
        rcases List.length_eq_one.1 (h1each s hs) with ⟨p, hp⟩
        have hpm : p ∈ pointsAt dv (H s) := by rw [hp]; exact List.mem_cons_self p []
        have hpos := (hval s hs p (List.mem_filter.1 hpm).1).2
        rw [← hxs, hp]
        simpa using hpos
      · intro hnil
        rcases List.exists_mem_of_ne_nil names hne with ⟨s0, hs0⟩
        have : ((pointsAt dv (H s0)).map (fun p => p.value)).sum ∈
            names.map (fun s => ((pointsAt dv (H s)).map (fun p => p.value)).sum) :=
          List.mem_map_of_mem _ hs0
        rw [hnil] at this
        cases this

theorem filter_pred_le_pointsAt (cy : Int) (dv : DateVal) (h : List TimePoint) :
    (h.filter (fun p => p.date == some dv && isValidDate cy p.date)).length
      ≤ (pointsAt dv h).length := by
  unfold pointsAt
  induction h with
  | nil => simp
  | cons p t ih =>
    rw [List.filter_cons, List.filter_cons]
    by_cases h1 : (p.date == some dv && isValidDate cy p.date) = true
    · have h12 : (p.date == some dv) = true ∧ isValidDate cy p.date = true := by
        simpa using h1
      rw [if_pos h1, if_pos h12.1]
      simp only [List.length_cons]
      exact Nat.succ_le_succ ih
    · by_cases h2 : (p.date == some dv) = true
      · rw [if_neg h1, if_pos h2]
        simp only [List.length_cons]
        exact Nat.le_succ_of_le ih
      · rw [if_neg h1, if_neg h2]
        exact ih

theorem sum_le_reporting (names : List String) (g : String → Nat) (A : String → Bool)
    (hle : ∀ s ∈ names, g s ≤ 1) (him : ∀ s ∈ names, g s ≠ 0 → A s = true) :
    (names.map g).sum ≤ (names.filter A).length := by
  induction names with
  | nil => simp
  | cons s t ih =>
    rw [List.map_cons, List.sum_cons, List.filter_cons]
    have iht := ih (fun x hx => hle x (List.mem_cons_of_mem s hx))
      (fun x hx => him x (List.mem_cons_of_mem s hx))
    by_cases h0 : g s = 0
    · rw [h0]
      split
      · rw [List.length_cons]
        omega
      · omega
    · rw [him s (List.mem_cons_self s t) h0]
      simp only [if_true]
      rw [List.length_cons]
      have := hle s (List.mem_cons_self s t)
      omega

theorem combineHistories_sparse_not_mem (cy : Int) (names : List String)
    (H : String → List TimePoint) (h2 : 2 ≤ names.length)
    (hdupH : ∀ s ∈ names, ((H s).map (fun p => p.date)).Nodup)
    (dv : DateVal)
    (hrep : (names.filter (fun s => (H s).any (fun p => p.date == some dv))).length ≤ 1)
    (v : Int) :
    TimePoint.mk (some dv) v ∉ combineHistories cy names.length ((names.map H).flatten) := by
  intro hmem
  rcases (mem_combineHistories_iff cy names.length _ dv v).1 hmem with
    ⟨e, hfind, hcount, htot, hvalid, hpos⟩
  rw [groupFold_find] at hfind
  simp only [List.find?_nil] at hfind
  by_cases hc0 : ((names.map H).flatten).filter
      (fun p => p.date == some dv && isValidDate cy p.date) = []
  · rw [if_pos hc0] at hfind
    exact Option.noConfusion hfind
  · rw [if_neg hc0] at hfind
    have hE : e = GroupEntry.mk dv
        ((((names.map H).flatten).filter
          (fun p => p.date == some dv && isValidDate cy p.date)).map (fun p => p.value)).sum
        (((names.map H).flatten).filter
          (fun p => p.date == some dv && isValidDate cy p.date)).length := by
      injection hfind with hh
      exact hh.symm
    have hsplit : ((names.map H).flatten).filter
        (fun p => p.date == some dv && isValidDate cy p.date)
        = (names.map (fun s => (H s).filter
            (fun p => p.date == some dv && isValidDate cy p.date))).flatten := by
      rw [List.filter_flatten, List.map_map]
      rfl
    have hlensum : (((names.map H).flatten).filter
        (fun p => p.date == some dv && isValidDate cy p.date)).length
        = (names.map (fun s => ((H s).filter
            (fun p => p.date == some dv && isValidDate cy p.date)).length)).sum := by
      rw [hsplit, List.length_flatten, List.map_map]
      rfl
    have hbound : (names.map (fun s => ((H s).filter
        (fun p => p.date == some dv && isValidDate cy p.date)).length)).sum
        ≤ (names.filter (fun s => (H s).any (fun p => p.date == some dv))).length := by
      apply sum_le_reporting
      · intro s hs
        exact le_trans (filter_pred_le_pointsAt cy dv (H s)) (pointsAt_len_le_one dv (H s) (hdupH s hs))
      · intro s _ hne0
        have hne2 : (H s).filter (fun p => p.date == some dv && isValidDate cy p.date) ≠ [] := by
          intro hh
          exact hne0 (by rw [hh]; rfl)
        rcases List.exists_mem_of_ne_nil _ hne2 with ⟨p, hp⟩
        rcases List.mem_filter.1 hp with ⟨hpm, hpc⟩
        rw [List.any_eq_true]
        have hpc2 : (p.date == some dv) = true ∧ isValidDate cy p.date = true := by
          simpa using hpc
        exact ⟨p, hpm, hpc2.1⟩
    have hcnt : e.accountCount = (((names.map H).flatten).filter
        (fun p => p.date == some dv && isValidDate cy p.date)).length := by
      rw [hE]
    rw [hcount] at hcnt
    rw [hlensum] at hcnt
    omega

theorem parseAccountData_hist_valid (cy now : Int) (pf : Platform) (wb : Workbook)
    (s : String) (r : TimeRange) :
    (∀ p ∈ (parseAccountData cy now pf wb s r).followersHistory,
      isValidDate cy p.date = true ∧ 0 < p.value) ∧
    (∀ p ∈ (parseAccountData cy now pf wb s r).totalLikesHistory,
      isValidDate cy p.date = true ∧ 0 < p.value) := by
  cases pf <;>
    exact ⟨fun p hp => ⟨(histPostFilter_sound cy _ p hp).2, (histPostFilter_sound cy _ p hp).1⟩,
      fun p hp => ⟨(histPostFilter_sound cy _ p hp).2, (histPostFilter_sound cy _ p hp).1⟩⟩

theorem moonFollowers_eq (cy now : Int) (pf : Platform) (wb : Workbook) (r : TimeRange) :
    (parseMoonMediaTotal cy now pf wb r).followersHistory
      = combineHistories cy wb.sheetNames.length
          ((wb.sheetNames.map (fun s => (parseAccountData cy now pf wb s r).followersHistory)).flatten) := by
  show combineHistories cy wb.sheetNames.length
      (((wb.sheetNames.map (fun s => parseAccountData cy now pf wb s r)).map
        (fun d => d.followersHistory)).flatten) = _
  rw [List.map_map]
  rfl

theorem moonLikes_eq (cy now : Int) (pf : Platform) (wb : Workbook) (r : TimeRange) :
    (parseMoonMediaTotal cy now pf wb r).totalLikesHistory
      = combineHistories cy wb.sheetNames.length
          ((wb.sheetNames.map (fun s => (parseAccountData cy now pf wb s r).totalLikesHistory)).flatten) := by
  show combineHistories cy wb.sheetNames.length
      (((wb.sheetNames.map (fun s => parseAccountData cy now pf wb s r)).map
        (fun d => d.totalLikesHistory)).flatten) = _
  rw [List.map_map]
  rfl

/-- C1 amended: provided the workbook has at least one account and every
account's histories carry at most one point per timestamp, the combined
history has a point at timestamp T exactly when every account contributed
a point at T, and its value is the sum of the per-account values at T.
Without the at-most-one-point proviso the rule counts contributions with
multiplicity and the equivalence fails. -/
theorem c1_full_coverage_amended (cy now : Int) (pf : Platform) (wb : Workbook) (r : TimeRange)
    (hne : wb.sheetNames ≠ [])
    (hdup : ∀ s ∈ wb.sheetNames,
      (((parseAccountData cy now pf wb s r).followersHistory).map (fun p => p.date)).Nodup ∧
      (((parseAccountData cy now pf wb s r).totalLikesHistory).map (fun p => p.date)).Nodup) :
    ∀ (dv : DateVal) (v : Int),
      ((TimePoint.mk (some dv) v ∈ (parseMoonMediaTotal cy now pf wb r).followersHistory ↔
        ((∀ s ∈ wb.sheetNames, ∃ p ∈ (parseAccountData cy now pf wb s r).followersHistory,
            p.date = some dv) ∧
          v = (wb.sheetNames.map (fun s =>
            ((pointsAt dv (parseAccountData cy now pf wb s r).followersHistory).map
              (fun p => p.value)).sum)).sum))
      ∧ (TimePoint.mk (some dv) v ∈ (parseMoonMediaTotal cy now pf wb r).totalLikesHistory ↔
        ((∀ s ∈ wb.sheetNames, ∃ p ∈ (parseAccountData cy now pf wb s r).totalLikesHistory,
            p.date = some dv) ∧
          v = (wb.sheetNames.map (fun s =>
            ((pointsAt dv (parseAccountData cy now pf wb s r).totalLikesHistory).map
              (fun p => p.value)).sum)).sum))) := by
  intro dv v
  constructor
  · rw [moonFollowers_eq]
    exact combineHistories_mem_iff cy wb.sheetNames _ hne
      (fun s hs => (parseAccountData_hist_valid cy now pf wb s r).1)
      (fun s hs => (hdup s hs).1) dv v
  · rw [moonLikes_eq]
    exact combineHistories_mem_iff cy wb.sheetNames _ hne
      (fun s hs => (parseAccountData_hist_valid cy now pf wb s r).2)
      (fun s hs => (hdup s hs).2) dv v

/-- Witness for the amended C1 at the two-account scenario (accounts at
days 1,2,3 and 1,3): day 1 appears with the summed value 15. -/
theorem c1_witness :
    TimePoint.mk (some (fxDate 1)) 15 ∈
      (parseMoonMediaTotal 2025 0 Platform.tiktok fxWbAB TimeRange.all).followersHistory :=
  ((c1_full_coverage_amended 2025 0 Platform.tiktok fxWbAB TimeRange.all (by decide) (by decide)
    (fxDate 1) 15).1).mpr ⟨by decide, by decide⟩

/-- C1 counterexample: a single-account workbook whose header repeats the
day-1 timestamp. The account contributes points at day 1, yet the combined
history is empty, because the bucket count 2 differs from the account
count 1 - the claimed equivalence fails as stated. -/
theorem c1_counterexample :
    (∀ s ∈ fxWbDup.sheetNames,
      ∃ p ∈ (parseAccountData 2025 0 Platform.tiktok fxWbDup s TimeRange.all).followersHistory,
        p.date = some (fxDate 1)) ∧
    (parseMoonMediaTotal 2025 0 Platform.tiktok fxWbDup TimeRange.all).followersHistory = [] := by
  decide

/-- C9 amended: in a workbook with at least two accounts whose histories
carry at most one point per timestamp, a timestamp reported by at most one
account never appears in the combined histories. -/
theorem c9_sparse_timestamp_amended (cy now : Int) (pf : Platform) (wb : Workbook) (r : TimeRange)
    (h2 : 2 ≤ wb.sheetNames.length)
    (hdup : ∀ s ∈ wb.sheetNames,
      (((parseAccountData cy now pf wb s r).followersHistory).map (fun p => p.date)).Nodup ∧
      (((parseAccountData cy now pf wb s r).totalLikesHistory).map (fun p => p.date)).Nodup) :
    ∀ dv : DateVal,
      (((wb.sheetNames.filter (fun s =>
          ((parseAccountData cy now pf wb s r).followersHistory).any
            (fun p => p.date == some dv))).length ≤ 1 →
        ∀ v : Int, TimePoint.mk (some dv) v ∉
          (parseMoonMediaTotal cy now pf wb r).followersHistory)
      ∧ ((wb.sheetNames.filter (fun s =>
          ((parseAccountData cy now pf wb s r).totalLikesHistory).any
            (fun p => p.date == some dv))).length ≤ 1 →
        ∀ v : Int, TimePoint.mk (some dv) v ∉
          (parseMoonMediaTotal cy now pf wb r).totalLikesHistory)) := by
  intro dv
  constructor
  · intro hrep v
    rw [moonFollowers_eq]
    exact combineHistories_sparse_not_mem cy wb.sheetNames _ h2
      (fun s hs => (hdup s hs).1) dv hrep v
  · intro hrep v
    rw [moonLikes_eq]
    exact combineHistories_sparse_not_mem cy wb.sheetNames _ h2
      (fun s hs => (hdup s hs).2) dv hrep v

/-- Witness for the amended C9: day 2 is reported only by account A of
the two-account scenario and is absent from the combined history. -/
theorem c9_witness :
    TimePoint.mk (some (fxDate 2)) 20 ∉
      (parseMoonMediaTotal 2025 0 Platform.tiktok fxWbAB TimeRange.all).followersHistory :=
  ((c9_sparse_timestamp_amended 2025 0 Platform.tiktok fxWbAB TimeRange.all (by decide) (by decide)
    (fxDate 2)).1) (by decide) 20

/-- C9 counterexample: in a single-account workbook fewer than 2 accounts
report at day 1, yet day 1 appears in the combined history (the count
rule compares against the total account count 1). -/
theorem c9_counterexample :
    ((fxWbSingle.sheetNames.filter (fun s =>
        ((parseAccountData 2025 0 Platform.tiktok fxWbSingle s TimeRange.all).followersHistory).any
          (fun p => p.date == some (fxDate 1)))).length < 2) ∧
    TimePoint.mk (some (fxDate 1)) 10 ∈
      (parseMoonMediaTotal 2025 0 Platform.tiktok fxWbSingle TimeRange.all).followersHistory := by
  decide
